import Mathlib

/-!
A verification development for the remote-job orchestration layer of the
Inversionson repository (`inversionson/helpers/autoinverter_helpers.py` and
`inversionson/components/flow_comp.py`).

The embedding is shallow: the Python classes `RemoteJobListener` and
`ForwardHelper` become explicit state-passing functions over a `Ledger`
(the per-event, per-job-type persisted job dictionaries of the project),
a `Listener` record (the in-memory lists `events_already_retrieved`,
`events_retrieved_now`, `to_repost`, `not_submitted` of the listener
object), and traces recording the externally visible calls (scheduler
status queries, job submissions, the idle wait `sleep_or_process`).
A raised `InversionsonError` becomes the `Res.fatal` constructor, which
carries the state of the object at the moment of the raise, since the
Python exception leaves the mutated object behind.
-/

namespace Inversionson

/-- Job status names produced by Salvus Flow's `JobStatus` enum; the
`other` constructor stands for any unrecognised status string. -/
inductive JobStatus where
  | pending
  | running
  | finished
  | failed
  | unknown
  | cancelled
  | other (s : String)
deriving DecidableEq, Repr

/-- The job types the listener distinguishes (`self.job_type`). -/
inductive JobType where
  | forward
  | adjoint
  | model_interp
  | gradient_interp
  | hpc_processing
  | smoothing
deriving DecidableEq, Repr

/-- One per-(job type, event) record of the iteration toml:
`{job_type}_job["{event}"]` with its `submitted`, `retrieved` and
`reposts` fields.  The scheduler-assigned `name` field is opaque to all
of the orchestration logic modelled here and is omitted. -/
structure JobRecord where
  submitted : Bool
  retrieved : Bool
  reposts : Nat
deriving DecidableEq, Repr

/-- `max_reposts = 3` (module-level constant, line 14). -/
def max_reposts : Nat := 3

/-- The persisted ledger: for every job type and event name, one record.
`change_attribute` calls become pointwise updates of this map. -/
def Ledger : Type := JobType → String → JobRecord

/-- Update the record of one (job type, event) pair. -/
def Ledger.set (L : Ledger) (jt : JobType) (e : String) (r : JobRecord) : Ledger :=
  fun jt2 e2 => if jt2 = jt ∧ e2 = e then r else L jt2 e2

/-- `change_attribute('{jt}_job["{e}"]["reposts"]', n)`. -/
def Ledger.setReposts (L : Ledger) (jt : JobType) (e : String) (n : Nat) : Ledger :=
  L.set jt e { L jt e with reposts := n }

/-- `change_attribute('{jt}_job["{e}"]["retrieved"]', b)`. -/
def Ledger.setRetrieved (L : Ledger) (jt : JobType) (e : String) (b : Bool) : Ledger :=
  L.set jt e { L jt e with retrieved := b }

/-- `change_attribute('{jt}_job["{e}"]["submitted"]', b)`. -/
def Ledger.setSubmitted (L : Ledger) (jt : JobType) (e : String) (b : Bool) : Ledger :=
  L.set jt e { L jt e with submitted := b }

/-- The in-memory per-listener state of a `RemoteJobListener` object. -/
structure Listener where
  alreadyRetrieved : List String
  retrievedNow : List String
  toRepost : List String
  notSubmitted : List String
deriving DecidableEq, Repr

/-- A fresh listener (`__init__`). -/
def Listener.init : Listener :=
  { alreadyRetrieved := [], retrievedNow := [], toRepost := [], notSubmitted := [] }

/-- Result of a fragment of Python that may raise `InversionsonError`:
`fatal` carries the message and the object state at the raise. -/
inductive Res (α : Type) where
  | ok (a : α)
  | fatal (msg : String) (a : α)
deriving Repr

/-- The state reached, whether or not the computation raised. -/
def Res.state : Res α → α
  | .ok a => a
  | .fatal _ a => a

/-- Did the computation raise? -/
def Res.isFatal : Res α → Bool
  | .ok _ => false
  | .fatal _ _ => true

/-- `RemoteJobListener.__check_status_of_job` (lines 111-150).  `statusOf`
is the oracle standing for `salvus_flow.get_job_status(event, job_type)`;
`reposts` is the count the caller read from the ledger.  On `failed` or
`unknown` with `reposts >= max_reposts` the function raises before any
mutation; below the bound it appends the event to `to_repost` and persists
the incremented count.  All other statuses leave the state untouched. -/
def check_status_of_job (jt : JobType) (statusOf : String → JobStatus)
    (lst : Listener) (L : Ledger) (event : String) (reposts : Nat) :
    Res (JobStatus × Listener × Ledger) :=
  let status := statusOf event
  match status with
  | .pending => .ok (status, lst, L)
  | .running => .ok (status, lst, L)
  | .failed =>
      if max_reposts ≤ reposts then
        .fatal "Too many reposts" (status, lst, L)
      else
        .ok (status, { lst with toRepost := lst.toRepost ++ [event] },
             L.setReposts jt event (reposts + 1))
  | .unknown =>
      if max_reposts ≤ reposts then
        .fatal "Too many reposts" (status, lst, L)
      else
        .ok (status, { lst with toRepost := lst.toRepost ++ [event] },
             L.setReposts jt event (reposts + 1))
  | .cancelled => .ok (status, lst, L)
  | .finished => .ok (status, lst, L)
  | .other _ => .ok (status, lst, L)

/-- Accumulator of one `__monitor_jobs` round: the listener, the ledger,
the three reporting counters, and a ghost trace `queried` recording the
events for which `get_job_status` was called this round. -/
structure MonAcc where
  listener : Listener
  ledger : Ledger
  finishedCount : Nat
  runningCount : Nat
  pendingCount : Nat
  queried : List String

/-- The body of the `for event in events_left` loop of `__monitor_jobs`
(lines 250-272), for a single event. -/
def monitor_step (jt : JobType) (statusOf : String → JobStatus)
    (a : MonAcc) (event : String) : Res MonAcc :=
  if (a.ledger jt event).retrieved then
    .ok { a with
          listener :=
            { a.listener with
              alreadyRetrieved := a.listener.alreadyRetrieved ++ [event] },
          finishedCount := a.finishedCount + 1 }
  else if ¬ (a.ledger jt event).submitted then
    .ok { a with
          listener :=
            { a.listener with
              notSubmitted := a.listener.notSubmitted ++ [event] } }
  else
    let reposts := (a.ledger jt event).reposts
    match check_status_of_job jt statusOf a.listener a.ledger event reposts with
    | .fatal msg (_, lst, L) =>
        .fatal msg { a with listener := lst, ledger := L,
                            queried := a.queried ++ [event] }
    | .ok (status, lst, L) =>
        let a := { a with listener := lst, ledger := L,
                          queried := a.queried ++ [event] }
        if status = .finished then
          let a := { a with
                     listener :=
                       { a.listener with
                         retrievedNow := a.listener.retrievedNow ++ [event] },
                     finishedCount := a.finishedCount + 1 }
          if jt = .gradient_interp then
            .ok { a with ledger := a.ledger.setRetrieved jt event true }
          else
            .ok a
        else if status = .pending then
          .ok { a with pendingCount := a.pendingCount + 1 }
        else if status = .running then
          .ok { a with runningCount := a.runningCount + 1 }
        else
          .ok a

/-- Sequential processing of the round's event list; a raise aborts the
round, leaving the state mutated so far behind. -/
def monitor_fold (jt : JobType) (statusOf : String → JobStatus) :
    MonAcc → List String → Res MonAcc
  | a, [] => .ok a
  | a, e :: rest =>
      match monitor_step jt statusOf a e with
      | .fatal msg a2 => .fatal msg a2
      | .ok a2 => monitor_fold jt statusOf a2 rest

/-- `events_left = list(set(events) - set(self.events_already_retrieved))`:
a set difference, hence deduplicated. -/
def events_left (events already : List String) : List String :=
  (events.filter (fun e => decide (e ∉ already))).dedup

/-- One round of `RemoteJobListener.__monitor_jobs` (lines 225-281) for
the non-array job types. -/
def monitor_jobs (jt : JobType) (statusOf : String → JobStatus)
    (events : List String) (lst : Listener) (L : Ledger) : Res MonAcc :=
  let left := events_left events lst.alreadyRetrieved
  monitor_fold jt statusOf
    { listener := lst, ledger := L,
      finishedCount := events.length - left.length,
      runningCount := 0, pendingCount := 0, queried := [] } left

/-- The in-memory state of a smoothing (array-job) listener.  In
"mono-batch" mode the whole batch is one scheduler array job and the
listener's single pseudo-event is `None`; the ledger of that mode keys
the global record at `none` and per-event records at `some e`. -/
structure SmListener where
  alreadyRetrieved : List String
  retrievedNow : List String
  toRepost : List (Option String)
deriving DecidableEq, Repr

/-- A fresh smoothing listener. -/
def SmListener.init : SmListener :=
  { alreadyRetrieved := [], retrievedNow := [], toRepost := [] }

/-- The smoothing-job part of the iteration toml: `smoothing_job` itself
(`none`, the mono-batch record) and `smoothing_job["{e}"]` (`some e`). -/
def SmLedger : Type := Option String → JobRecord

/-- Pointwise record update of the smoothing ledger. -/
def SmLedger.set (L : SmLedger) (k : Option String) (r : JobRecord) : SmLedger :=
  fun k2 => if k2 = k then r else L k2

/-- Persist a new repost count for key `k`. -/
def SmLedger.setReposts (L : SmLedger) (k : Option String) (n : Nat) : SmLedger :=
  L.set k { L k with reposts := n }

/-- Accumulator of the `for _i, s in enumerate(status)` loop of
`__check_status_of_job_array` (lines 163-214): the counters `params`
(collected finished sub-task statuses), `pending`, `running`, the
first-failure flag `i`, the local `reposts` variable, the listener and
the ledger. -/
structure ArrAcc where
  params : Nat
  pending : Nat
  running : Nat
  i : Nat
  reposts : Nat
  listener : SmListener
  ledger : SmLedger

/-- The sub-task loop of `__check_status_of_job_array`.  On the first
`failed`/`unknown` sub-task the event is appended to `to_repost` and the
local count incremented *before* the budget check; only when the check
passes is the new count persisted. -/
def check_array_go (event : Option String) :
    ArrAcc → List JobStatus → Res ArrAcc
  | a, [] => .ok a
  | a, s :: rest =>
      match s with
      | .finished => check_array_go event { a with params := a.params + 1 } rest
      | .pending => check_array_go event { a with pending := a.pending + 1 } rest
      | .running => check_array_go event { a with running := a.running + 1 } rest
      | .failed =>
          if a.i = 0 then
            let lst := { a.listener with toRepost := a.listener.toRepost ++ [event] }
            let reposts := a.reposts + 1
            if max_reposts ≤ reposts then
              .fatal "Too many reposts" { a with listener := lst, reposts := reposts }
            else
              check_array_go event
                { a with listener := lst, reposts := reposts,
                         ledger := a.ledger.setReposts event reposts,
                         i := a.i + 1 } rest
          else
            check_array_go event a rest
      | .unknown =>
          if a.i = 0 then
            let lst := { a.listener with toRepost := a.listener.toRepost ++ [event] }
            let reposts := a.reposts + 1
            if max_reposts ≤ reposts then
              .fatal "Too many reposts" { a with listener := lst, reposts := reposts }
            else
              check_array_go event
                { a with listener := lst, reposts := reposts,
                         ledger := a.ledger.setReposts event reposts,
                         i := a.i + 1 } rest
          else
            check_array_go event a rest
      | .cancelled => check_array_go event a rest
      | .other _ => check_array_go event a rest

/-- `RemoteJobListener.__check_status_of_job_array` (lines 152-223).
`statusArr` is the oracle's per-sub-task status list.  The Python
function returns `"finished"` only when every sub-task status was
collected into `params`, and otherwise falls off the end returning
`None`; state is itemised per whole event, never per sub-task. -/
def check_status_of_job_array (statusArr : List JobStatus)
    (event : Option String) (reposts : Nat) (lst : SmListener) (L : SmLedger) :
    Res (Option JobStatus × SmListener × SmLedger) :=
  match check_array_go event
      { params := 0, pending := 0, running := 0, i := 0,
        reposts := reposts, listener := lst, ledger := L } statusArr with
  | .fatal msg a => .fatal msg (none, a.listener, a.ledger)
  | .ok a =>
      .ok ((if a.params = statusArr.length then some .finished else none),
           a.listener, a.ledger)

/-- The `not smooth_individual` (mono-batch) branch of
`RemoteJobListener.__monitor_job_array` (lines 296-307): one array job
serves all events of the batch. -/
def monitor_job_array_mono (statusArr : List JobStatus)
    (events : List String) (lst : SmListener) (L : SmLedger) :
    Res (SmListener × SmLedger) :=
  if (L none).retrieved then
    .ok ({ lst with alreadyRetrieved := events }, L)
  else
    match check_status_of_job_array statusArr none (L none).reposts lst L with
    | .fatal msg (_, lst2, L2) => .fatal msg (lst2, L2)
    | .ok (st, lst2, L2) =>
        if st = some .finished then
          .ok ({ lst2 with retrievedNow := events }, L2)
        else
          .ok (lst2, L2)

/-- Orchestrator-side state: the ledger plus a ghost trace of the job
submissions actually handed to the scheduler (`sapi.run_async` via
`submit_job`, remote interpolation submission, hpc-processing
submission). -/
structure OState where
  ledger : Ledger
  submissions : List (JobType × String)

/-- `ForwardHelper.__run_forward_simulation` (lines 525 ff.): returns at
once when the forward job is already submitted; otherwise builds the
simulation and calls `submit_job`, which records the name and sets
`submitted=True` (flow_comp.py lines 433-444). -/
def run_forward_simulation (o : OState) (event : String) : OState :=
  if (o.ledger .forward event).submitted then o
  else
    { ledger := (o.ledger.setSubmitted .forward event true),
      submissions := o.submissions ++ [(.forward, event)] }

/-- `ForwardHelper._launch_hpc_processing_job` (lines 619 ff.): returns
at once when already submitted, else submits and sets `submitted=True`. -/
def launch_hpc_processing_job (o : OState) (event : String) : OState :=
  if (o.ledger .hpc_processing event).submitted then o
  else
    { ledger := (o.ledger.setSubmitted .hpc_processing event true),
      submissions := o.submissions ++ [(.hpc_processing, event)] }

/-- `ForwardHelper.__dispatch_adjoint_simulation` (lines 882 ff.):
guarded on the adjoint record's `submitted` flag. -/
def dispatch_adjoint_simulation (o : OState) (event : String) : OState :=
  if (o.ledger .adjoint event).submitted then o
  else
    { ledger := (o.ledger.setSubmitted .adjoint event true),
      submissions := o.submissions ++ [(.adjoint, event)] }

/-- `ForwardHelper.__interpolate_model` in `remote` mode (lines 446-503):
returns when the forward job is already submitted, when the model
interpolation is already retrieved, or when it is already submitted;
otherwise `interpolate_to_simulation_mesh` submits the remote
interpolation job and sets `model_interp_job[event]["submitted"]=True`
(multimesh_comp.py lines 103-131). -/
def interpolate_model_remote (o : OState) (event : String) : OState :=
  if (o.ledger .forward event).submitted then o
  else if (o.ledger .model_interp event).retrieved then o
  else if (o.ledger .model_interp event).submitted then o
  else
    { ledger := (o.ledger.setSubmitted .model_interp event true),
      submissions := o.submissions ++ [(.model_interp, event)] }

/-- Result of one pass through the body of an orchestration `while True`
loop: `exit` for `break`, `next` for falling through to the next round,
`fatal` for a raised `InversionsonError`. -/
inductive RoundOut (α : Type) where
  | exit (a : α)
  | next (a : α)
  | fatal (msg : String) (a : α)

/-- The state carried by any of the three outcomes. -/
def RoundOut.state : RoundOut α → α
  | .exit a => a
  | .next a => a
  | .fatal _ a => a

/-- Did the round hit `break`? -/
def RoundOut.isExit : RoundOut α → Bool
  | .exit _ => true
  | _ => false

/-- Configuration flags read inside `__retrieve_forward_simulations`:
`comm.project.hpc_processing` and the `validation` / `adjoint`
arguments. -/
structure Config where
  hpcProcessing : Bool
  validation : Bool
  adjoint : Bool

/-- The loop state of `__retrieve_forward_simulations`: the forward and
hpc-processing listeners, the orchestrator state, and whether the round
just completed called `sleep_or_process`. -/
structure RFState where
  forL : Listener
  hpcL : Listener
  o : OState
  slept : Bool
  retrievedThisRound : List String

/-- Launch hpc-processing for every already-retrieved forward event
(lines 1223-1225), active only when `hpc_processing and not validation`. -/
def rf_process_already (cfg : Config) (forL : Listener) (o : OState) : OState :=
  if cfg.hpcProcessing ∧ ¬ cfg.validation then
    forL.alreadyRetrieved.foldl launch_hpc_processing_job o
  else o

/-- Per-event processing of a newly retrieved forward job
(lines 1226-1250): seismogram side effects, possible hpc-processing
launch, the deferred `retrieved=True` write, and the possible adjoint
dispatch. -/
def rf_retrieved_step (cfg : Config) (o2 : OState) (event : String) : OState :=
  let o2 :=
    if cfg.hpcProcessing ∧ ¬ cfg.validation then
      launch_hpc_processing_job o2 event
    else o2
  let o2 : OState :=
    { o2 with ledger := o2.ledger.setRetrieved .forward event true }
  if cfg.adjoint ∧ ¬ cfg.hpcProcessing then
    dispatch_adjoint_simulation o2 event
  else o2

/-- Per-event processing of a flagged forward job (lines 1251-1257):
reset `submitted`, then resubmit. -/
def rf_repost_step (o2 : OState) (event : String) : OState :=
  run_forward_simulation
    { o2 with ledger := o2.ledger.setSubmitted .forward event false } event

/-- Per-event processing of a newly retrieved hpc-processing job
(lines 1280-1286). -/
def rf_hpc_retrieved_step (cfg : Config) (o3 : OState) (event : String) : OState :=
  let o3 : OState :=
    { o3 with ledger := o3.ledger.setRetrieved .hpc_processing event true }
  if cfg.adjoint ∧ cfg.hpcProcessing then
    dispatch_adjoint_simulation o3 event
  else o3

/-- Per-event processing of a flagged hpc-processing job
(lines 1288-1294). -/
def rf_hpc_repost_step (o3 : OState) (event : String) : OState :=
  launch_hpc_processing_job
    { o3 with ledger := o3.ledger.setSubmitted .hpc_processing event false } event

/-- The hpc-processing monitoring block (lines 1278-1301), entered only
when `hpc_processing and adjoint and not validation`; the boolean of the
result marks the `break` at line 1298, and in the non-break case the hpc
listener's per-round lists are reset *before* the sleep check. -/
def rf_hpc_block (cfg : Config) (hpcStatusOf : String → JobStatus)
    (events : List String) (hpcL : Listener) (o : OState) :
    Res (Listener × OState × Bool) :=
  if cfg.hpcProcessing ∧ cfg.adjoint ∧ ¬ cfg.validation then
    match monitor_jobs .hpc_processing hpcStatusOf events hpcL o.ledger with
    | .fatal msg b =>
        .fatal msg (b.listener, { o with ledger := b.ledger }, false)
    | .ok b =>
      let hpcL2 := b.listener
      let o2 : OState := { o with ledger := b.ledger }
      let o2 := hpcL2.retrievedNow.foldl (rf_hpc_retrieved_step cfg) o2
      let o2 := hpcL2.toRepost.foldl rf_hpc_repost_step o2
      if hpcL2.retrievedNow.length + hpcL2.alreadyRetrieved.length
          = events.length then
        .ok (hpcL2, o2, true)
      else
        .ok ({ hpcL2 with retrievedNow := [], toRepost := [] }, o2, false)
  else .ok (hpcL, o, false)

/-- The tail of the round (lines 1258-1313): the two early `break`
checks, the hpc-processing block with its own `break`, the conditional
sleep, and the listener resets. -/
def rf_finish (cfg : Config) (hpcStatusOf : String → JobStatus)
    (events : List String) (s : RFState) (forL : Listener) (o : OState) :
    RoundOut RFState :=
  if forL.retrievedNow.length + forL.alreadyRetrieved.length = events.length
      ∧ ¬ cfg.hpcProcessing then
    .exit { s with forL := forL, o := o, slept := false,
                   retrievedThisRound := forL.retrievedNow }
  else if forL.retrievedNow.length + forL.alreadyRetrieved.length = events.length
      ∧ cfg.validation then
    .exit { s with forL := forL, o := o, slept := false,
                   retrievedThisRound := forL.retrievedNow }
  else
    match rf_hpc_block cfg hpcStatusOf events s.hpcL o with
    | .fatal msg (hpcL, o2, _) =>
        .fatal msg { s with forL := forL, hpcL := hpcL, o := o2,
                            retrievedThisRound := forL.retrievedNow }
    | .ok (hpcL, o2, hpcBreak) =>
      if hpcBreak then
        .exit { s with forL := forL, hpcL := hpcL, o := o2, slept := false,
                       retrievedThisRound := forL.retrievedNow }
      else
        let slept := forL.retrievedNow = [] ∧ hpcL.retrievedNow = []
        .next { forL := { forL with retrievedNow := [], toRepost := [] },
                hpcL := { hpcL with retrievedNow := [], toRepost := [] },
                o := o2, slept := slept,
                retrievedThisRound := forL.retrievedNow }

/-- One pass through the `while True` body of
`ForwardHelper.__retrieve_forward_simulations` (lines 1219-1313):
monitor the forward jobs, launch hpc processing for already-retrieved
events, process newly retrieved events, repost flagged events, then run
the tail of the round. -/
def retrieve_forward_round (cfg : Config) (statusOf : String → JobStatus)
    (hpcStatusOf : String → JobStatus) (events : List String)
    (s : RFState) : RoundOut RFState :=
  match monitor_jobs .forward statusOf events s.forL s.o.ledger with
  | .fatal msg a =>
      .fatal msg { s with forL := a.listener,
                          o := { s.o with ledger := a.ledger } }
  | .ok a =>
    let forL := a.listener
    let o : OState := { s.o with ledger := a.ledger }
    let o := rf_process_already cfg forL o
    let o := forL.retrievedNow.foldl (rf_retrieved_step cfg) o
    let o := forL.toRepost.foldl rf_repost_step o
    rf_finish cfg hpcStatusOf events s forL o

/-- Outcome of running an orchestration loop for a bounded number of
rounds: it either exited via `break`, raised, or is still running. -/
inductive LoopOut (α : Type) where
  | exited (a : α)
  | fatal (msg : String) (a : α)
  | running (a : α)

/-- Is the loop still running after the allotted rounds? -/
def LoopOut.isRunning : LoopOut α → Bool
  | .running _ => true
  | _ => false

/-- Did the loop exit via `break` within the allotted rounds? -/
def LoopOut.isExited : LoopOut α → Bool
  | .exited _ => true
  | _ => false

/-- The state carried by any loop outcome. -/
def LoopOut.state : LoopOut α → α
  | .exited a => a
  | .fatal _ a => a
  | .running a => a

/-- Run `retrieve_forward_round` for up to `n` rounds; the oracle is a
per-round status function. -/
def retrieve_forward_loop (cfg : Config)
    (statusOf hpcStatusOf : Nat → String → JobStatus) (events : List String) :
    Nat → RFState → LoopOut RFState
  | 0, s => .running s
  | n + 1, s =>
      match retrieve_forward_round cfg (statusOf 0) (hpcStatusOf 0) events s with
      | .exit a => .exited a
      | .fatal msg a => .fatal msg a
      | .next a =>
          retrieve_forward_loop cfg (fun k => statusOf (k + 1))
            (fun k => hpcStatusOf (k + 1)) events n a

/-- Loop state of the model-interpolation polling loops: one listener,
the orchestrator state, whether the just-completed round slept, and the
events retrieved in the just-completed round (recorded before the
listener reset). -/
structure IState where
  lst : Listener
  o : OState
  slept : Bool
  retrievedThisRound : List String

/-- Per-event processing of a newly retrieved model interpolation
(lines 1019-1026): run the forward simulation, compute station weights,
then persist `model_interp_job[event]["retrieved"]=True`. -/
def interp_retrieved_step (o2 : OState) (event : String) : OState :=
  let o3 := run_forward_simulation o2 event
  { o3 with ledger := o3.ledger.setRetrieved .model_interp event true }

/-- Per-event processing of a flagged model interpolation
(lines 1027-1033): reset `submitted`, then re-dispatch it. -/
def interp_repost_step (o2 : OState) (event : String) : OState :=
  interpolate_model_remote
    { o2 with ledger := o2.ledger.setSubmitted .model_interp event false } event

/-- The tail of an interpolation-dispatch round (lines 1039-1048): the
`break` check, then `sleep_or_process` exactly when no event was newly
retrieved, then the listener resets. -/
def interp_finish (events : List String) (lst : Listener) (o : OState) :
    RoundOut IState :=
  if lst.alreadyRetrieved.length + lst.retrievedNow.length = events.length then
    .exit { lst := lst, o := o, slept := false,
            retrievedThisRound := lst.retrievedNow }
  else
    let slept := lst.retrievedNow = []
    .next { lst := { lst with retrievedNow := [], toRepost := [] }, o := o,
            slept := slept, retrievedThisRound := lst.retrievedNow }

/-- One pass through the `while True` body of
`ForwardHelper.__dispatch_forwards_remote_interpolations`
(lines 1017-1048): monitor the interpolation jobs; for each newly
retrieved event run the forward simulation, compute station weights and
set `model_interp_job[event]["retrieved"]=True`; for each flagged event
reset `submitted` and re-dispatch the interpolation; `break` when every
event is retrieved; otherwise sleep exactly when no event was newly
retrieved, then reset the listener lists. -/
def dispatch_interp_round (statusOf : String → JobStatus)
    (events : List String) (s : IState) : RoundOut IState :=
  match monitor_jobs .model_interp statusOf events s.lst s.o.ledger with
  | .fatal msg a =>
      .fatal msg { s with lst := a.listener,
                          o := { s.o with ledger := a.ledger } }
  | .ok a =>
    let lst := a.listener
    let o : OState := { s.o with ledger := a.ledger }
    let o := lst.retrievedNow.foldl interp_retrieved_step o
    let o := lst.toRepost.foldl interp_repost_step o
    interp_finish events lst o

/-- The Python exceptions the reconciliation pass can produce. -/
inductive PyErr where
  | typeError (msg : String)
deriving DecidableEq, Repr

/-- The pre-loop scan of `ForwardHelper.__dispatch_remaining_forwards`
(lines 1058-1075): for each event whose forward job is unsubmitted, run
the forward at once when its model interpolation is retrieved; when the
interpolation is not even submitted the code executes
`events_left.append()` — a call with no argument, which raises
`TypeError` — before redispatching the interpolation; an event whose
interpolation is submitted but not retrieved falls through both
branches and is put on no list at all. -/
def dispatch_remaining_scan (o : OState) :
    List String → Except PyErr (OState × List String)
  | [] => .ok (o, [])
  | event :: rest =>
      if ¬ (o.ledger .forward event).submitted then
        if (o.ledger .model_interp event).retrieved then
          dispatch_remaining_scan (run_forward_simulation o event) rest
        else if ¬ (o.ledger .model_interp event).submitted then
          .error (.typeError "list.append() takes exactly one argument (0 given)")
        else
          dispatch_remaining_scan o rest
      else
        dispatch_remaining_scan o rest

/-- One pass through the body of the
`while len(already_retrieved) != len(events_left)` loop of
`__dispatch_remaining_forwards` (lines 1081-1105), over the `events_left`
list of the enclosing function: monitor, process retrieved and reposted
events, reset the listener lists, and then call `sleep_or_process`
*unconditionally* (line 1105). -/
def dispatch_remaining_round_on (statusOf : String → JobStatus)
    (eventsLeft : List String) (s : IState) : RoundOut IState :=
  match monitor_jobs .model_interp statusOf eventsLeft s.lst s.o.ledger with
  | .fatal msg a =>
      .fatal msg { s with lst := a.listener,
                          o := { s.o with ledger := a.ledger } }
  | .ok a =>
    let lst := a.listener
    let o : OState := { s.o with ledger := a.ledger }
    let o := lst.retrievedNow.foldl interp_retrieved_step o
    let o := lst.toRepost.foldl interp_repost_step o
    .next { lst := { lst with retrievedNow := [], toRepost := [] }, o := o,
            slept := true, retrievedThisRound := lst.retrievedNow }

/-- Iterate `monitor_jobs` rounds, threading listener and ledger and
concatenating the per-round query traces; `oracle n` is the status
function of round `n`. -/
def monitor_rounds (jt : JobType) (oracle : Nat → String → JobStatus)
    (events : List String) :
    Nat → Listener → Ledger → List String → Res (Listener × Ledger × List String)
  | 0, lst, L, qs => .ok (lst, L, qs)
  | n + 1, lst, L, qs =>
      match monitor_jobs jt (oracle 0) events lst L with
      | .fatal msg a => .fatal msg (a.listener, a.ledger, qs ++ a.queried)
      | .ok a =>
          monitor_rounds jt (fun k => oracle (k + 1)) events n
            a.listener a.ledger (qs ++ a.queried)

/-- Iterate the per-event status check of a listener whose oracle always
answers `failed`, reading the repost count from the ledger each round,
exactly as `__monitor_jobs` does before calling
`__check_status_of_job`. -/
def failed_round_iter (jt : JobType) (event : String) :
    Nat → Listener → Ledger → Res (Listener × Ledger)
  | 0, lst, L => .ok (lst, L)
  | n + 1, lst, L =>
      match check_status_of_job jt (fun _ => .failed) lst L event
          (L jt event).reposts with
      | .fatal msg (_, lst2, L2) => .fatal msg (lst2, L2)
      | .ok (_, lst2, L2) => failed_round_iter jt event n lst2 L2

/-- The `retrieved ⟹ submitted` invariant of the spec, for every
(job type, event) record of the ledger. -/
def LedgerInv (L : Ledger) : Prop :=
  ∀ jt e, (L jt e).retrieved = true → (L jt e).submitted = true

end Inversionson


namespace Inversionson

/-! ### Basic lemmas about ledger updates -/

theorem Ledger.set_self (L : Ledger) (jt : JobType) (e : String) (r : JobRecord) :
    (L.set jt e r) jt e = r := by
  simp [Ledger.set]

theorem Ledger.set_other (L : Ledger) (jt : JobType) (e : String) (r : JobRecord)
    (jt2 : JobType) (e2 : String) (h : ¬ (jt2 = jt ∧ e2 = e)) :
    (L.set jt e r) jt2 e2 = L jt2 e2 := by
  simp [Ledger.set, h]

theorem Ledger.setReposts_retrieved (L : Ledger) (jt : JobType) (e : String) (n : Nat)
    (jt2 : JobType) (e2 : String) :
    ((L.setReposts jt e n) jt2 e2).retrieved = (L jt2 e2).retrieved := by
  unfold Ledger.setReposts Ledger.set
  by_cases h : jt2 = jt ∧ e2 = e
  · obtain ⟨h1, h2⟩ := h; subst h1; subst h2; simp
  · simp [h]

theorem Ledger.setReposts_submitted (L : Ledger) (jt : JobType) (e : String) (n : Nat)
    (jt2 : JobType) (e2 : String) :
    ((L.setReposts jt e n) jt2 e2).submitted = (L jt2 e2).submitted := by
  unfold Ledger.setReposts Ledger.set
  by_cases h : jt2 = jt ∧ e2 = e
  · obtain ⟨h1, h2⟩ := h; subst h1; subst h2; simp
  · simp [h]

theorem Ledger.setReposts_self_reposts (L : Ledger) (jt : JobType) (e : String) (n : Nat) :
    ((L.setReposts jt e n) jt e).reposts = n := by
  simp [Ledger.setReposts, Ledger.set]

theorem Ledger.setRetrieved_submitted (L : Ledger) (jt : JobType) (e : String) (b : Bool)
    (jt2 : JobType) (e2 : String) :
    ((L.setRetrieved jt e b) jt2 e2).submitted = (L jt2 e2).submitted := by
  unfold Ledger.setRetrieved Ledger.set
  by_cases h : jt2 = jt ∧ e2 = e
  · obtain ⟨h1, h2⟩ := h; subst h1; subst h2; simp
  · simp [h]

theorem Ledger.setSubmitted_retrieved (L : Ledger) (jt : JobType) (e : String) (b : Bool)
    (jt2 : JobType) (e2 : String) :
    ((L.setSubmitted jt e b) jt2 e2).retrieved = (L jt2 e2).retrieved := by
  unfold Ledger.setSubmitted Ledger.set
  by_cases h : jt2 = jt ∧ e2 = e
  · obtain ⟨h1, h2⟩ := h; subst h1; subst h2; simp
  · simp [h]

/-! ### Invariant preservation of the primitive updates -/

theorem LedgerInv.setReposts {L : Ledger} (h : LedgerInv L)
    (jt : JobType) (e : String) (n : Nat) : LedgerInv (L.setReposts jt e n) := by
  intro jt2 e2 hret
  rw [Ledger.setReposts_retrieved] at hret
  rw [Ledger.setReposts_submitted]
  exact h jt2 e2 hret

theorem LedgerInv.setSubmittedTrue {L : Ledger} (h : LedgerInv L)
    (jt : JobType) (e : String) : LedgerInv (L.setSubmitted jt e true) := by
  intro jt2 e2 hret
  rw [Ledger.setSubmitted_retrieved] at hret
  unfold Ledger.setSubmitted Ledger.set
  by_cases hc : jt2 = jt ∧ e2 = e
  · obtain ⟨h1, h2⟩ := hc; subst h1; subst h2; simp
  · simp only [if_neg hc]
    exact h jt2 e2 hret

theorem LedgerInv.setRetrievedTrue {L : Ledger} (h : LedgerInv L)
    (jt : JobType) (e : String) (hsub : (L jt e).submitted = true) :
    LedgerInv (L.setRetrieved jt e true) := by
  intro jt2 e2 hret
  rw [Ledger.setRetrieved_submitted]
  unfold Ledger.setRetrieved Ledger.set at hret
  by_cases hc : jt2 = jt ∧ e2 = e
  · obtain ⟨h1, h2⟩ := hc; subst h1; subst h2; exact hsub
  · simp only [if_neg hc] at hret
    exact h jt2 e2 hret

theorem LedgerInv.setSubmittedFalse {L : Ledger} (h : LedgerInv L)
    (jt : JobType) (e : String) (hret : (L jt e).retrieved = false) :
    LedgerInv (L.setSubmitted jt e false) := by
  intro jt2 e2 h2
  rw [Ledger.setSubmitted_retrieved] at h2
  unfold Ledger.setSubmitted Ledger.set
  by_cases hc : jt2 = jt ∧ e2 = e
  · obtain ⟨h1, h2eq⟩ := hc; subst h1; subst h2eq
    rw [h2] at hret; cases hret
  · simp only [if_neg hc]
    exact h jt2 e2 h2

end Inversionson

namespace Inversionson

/-! ### `__check_status_of_job` on `failed`/`unknown` -/

theorem check_status_of_job_repost (jt : JobType) (statusOf : String → JobStatus)
    (lst : Listener) (L : Ledger) (event : String) (reposts : Nat)
    (hs : statusOf event = .failed ∨ statusOf event = .unknown)
    (hb : reposts < max_reposts) :
    check_status_of_job jt statusOf lst L event reposts =
      .ok (statusOf event, { lst with toRepost := lst.toRepost ++ [event] },
           L.setReposts jt event (reposts + 1)) := by
  unfold check_status_of_job
  rcases hs with hs | hs <;> rw [hs] <;> simp [Nat.not_le.mpr hb]

theorem check_status_of_job_fatal (jt : JobType) (statusOf : String → JobStatus)
    (lst : Listener) (L : Ledger) (event : String) (reposts : Nat)
    (hs : statusOf event = .failed ∨ statusOf event = .unknown)
    (hb : max_reposts ≤ reposts) :
    check_status_of_job jt statusOf lst L event reposts =
      .fatal "Too many reposts" (statusOf event, lst, L) := by
  unfold check_status_of_job
  rcases hs with hs | hs <;> rw [hs] <;> simp [hb]

/-- Behaviour of the repost loop of a permanently failing event, starting
from an arbitrary persisted count `k`: as long as the total stays within
the budget the event is flagged once per round and the count is
incremented each time; as soon as the budget is crossed the run aborts
fatally, with exactly `max_reposts - k` flags issued. -/
theorem failed_round_iter_spec (jt : JobType) (event : String) :
    ∀ (n k : Nat) (lst : Listener) (L : Ledger), (L jt event).reposts = k →
      (k + n ≤ max_reposts →
        ∃ L2 : Ledger,
          failed_round_iter jt event n lst L =
            .ok ({ lst with toRepost := lst.toRepost ++ List.replicate n event }, L2) ∧
          (L2 jt event).reposts = k + n) ∧
      (max_reposts < k + n → k ≤ max_reposts →
        ∃ L2 : Ledger,
          failed_round_iter jt event n lst L =
            .fatal "Too many reposts"
              ({ lst with toRepost :=
                    lst.toRepost ++ List.replicate (max_reposts - k) event }, L2) ∧
          (L2 jt event).reposts = max_reposts) := by
  intro n
  induction n with
  | zero =>
      intro k lst L hk
      constructor
      · intro _
        refine ⟨L, ?_, ?_⟩
        · simp [failed_round_iter]
        · omega
      · intro h1 h2
        omega
  | succ n ih =>
      intro k lst L hk
      by_cases hb : max_reposts ≤ k
      · -- the very next check raises, with no further mutation
        constructor
        · intro h; omega
        · intro h1 h2
          have hk3 : k = max_reposts := le_antisymm h2 hb
          refine ⟨L, ?_, ?_⟩
          · unfold failed_round_iter
            rw [hk, check_status_of_job_fatal jt (fun _ => .failed) lst L event k (Or.inl rfl) hb]
            subst hk3
            simp
          · omega
      · -- one more repost round succeeds, then recurse
        have hb2 : k < max_reposts := Nat.not_le.mp hb
        have hstep :
            failed_round_iter jt event (n + 1) lst L =
              failed_round_iter jt event n
                { lst with toRepost := lst.toRepost ++ [event] }
                (L.setReposts jt event (k + 1)) := by
          conv_lhs => unfold failed_round_iter
          rw [hk, check_status_of_job_repost jt (fun _ => .failed) lst L event k (Or.inl rfl) hb2]
        have hk2 : ((L.setReposts jt event (k + 1)) jt event).reposts = k + 1 :=
          Ledger.setReposts_self_reposts L jt event (k + 1)
        have ihspec := ih (k + 1) { lst with toRepost := lst.toRepost ++ [event] }
          (L.setReposts jt event (k + 1)) hk2
        constructor
        · intro hle
          obtain ⟨L2, hrun, hcount⟩ := ihspec.1 (by omega)
          refine ⟨L2, ?_, by omega⟩
          rw [hstep, hrun]
          simp [List.replicate_succ]
        · intro h1 _
          obtain ⟨L2, hrun, hcount⟩ := ihspec.2 (by omega) (by omega)
          refine ⟨L2, ?_, hcount⟩
          rw [hstep, hrun]
          have hrw : max_reposts - k = (max_reposts - (k + 1)) + 1 := by omega
          rw [hrw]
          simp [List.replicate_succ]

end Inversionson

namespace Inversionson

/-- A ledger in which nothing has been submitted yet. -/
def freshLedger : Ledger :=
  fun _ _ => { submitted := false, retrieved := false, reposts := 0 }

/-- A ledger in which every job is submitted but not retrieved. -/
def submittedLedger : Ledger :=
  fun _ _ => { submitted := true, retrieved := false, reposts := 0 }

/-- A ledger in which every job is submitted and retrieved. -/
def retrievedLedger : Ledger :=
  fun _ _ => { submitted := true, retrieved := true, reposts := 0 }

/-- A smoothing ledger in which every record is submitted, unretrieved. -/
def smSubmittedLedger : SmLedger :=
  fun _ => { submitted := true, retrieved := false, reposts := 0 }

/-- C1: for an event polled as `failed` or `unknown`, a repost count
below `max_reposts` leads to the event being flagged in `to_repost` and
the incremented count being persisted, while a count at or above
`max_reposts` raises the fatal "Too many reposts" error; consequently an
event that keeps failing is resubmitted exactly once per round, at most
`max_reposts` times in total, before the run aborts fatally. -/
theorem claim_C1_repost_budget (jt : JobType) (statusOf : String → JobStatus)
    (lst : Listener) (L : Ledger) (event : String)
    (hs : statusOf event = .failed ∨ statusOf event = .unknown) :
    ((L jt event).reposts < max_reposts →
      check_status_of_job jt statusOf lst L event (L jt event).reposts =
        .ok (statusOf event, { lst with toRepost := lst.toRepost ++ [event] },
             L.setReposts jt event ((L jt event).reposts + 1)))
    ∧ (max_reposts ≤ (L jt event).reposts →
      check_status_of_job jt statusOf lst L event (L jt event).reposts =
        .fatal "Too many reposts" (statusOf event, lst, L))
    ∧ ((L jt event).reposts = 0 →
      ∀ n : Nat,
        (n ≤ max_reposts →
          ∃ L2 : Ledger,
            failed_round_iter jt event n lst L =
              .ok ({ lst with toRepost := lst.toRepost ++ List.replicate n event },
                   L2) ∧
            (L2 jt event).reposts = n)
        ∧ (max_reposts < n →
          ∃ L2 : Ledger,
            failed_round_iter jt event n lst L =
              .fatal "Too many reposts"
                ({ lst with toRepost :=
                      lst.toRepost ++ List.replicate max_reposts event }, L2) ∧
            (L2 jt event).reposts = max_reposts)) := by
  refine ⟨?_, ?_, ?_⟩
  · intro hb
    exact check_status_of_job_repost jt statusOf lst L event (L jt event).reposts hs hb
  · intro hb
    exact check_status_of_job_fatal jt statusOf lst L event (L jt event).reposts hs hb
  · intro h0 n
    have hspec := failed_round_iter_spec jt event n 0 lst L h0
    constructor
    · intro hle
      obtain ⟨L2, hrun, hcount⟩ := hspec.1 (by omega)
      exact ⟨L2, hrun, by omega⟩
    · intro hgt
      obtain ⟨L2, hrun, hcount⟩ := hspec.2 (by omega) (by omega)
      have : max_reposts - 0 = max_reposts := by omega
      rw [this] at hrun
      exact ⟨L2, hrun, hcount⟩

/-- Witness for C1 at a concrete input: a fresh record, repost count 0,
a scheduler that always answers `failed`; one round flags and persists
count 1, and four rounds end in the fatal abort after exactly three
resubmission flags. -/
theorem claim_C1_repost_budget_witness :
    check_status_of_job .forward (fun _ => .failed) Listener.init submittedLedger
        "E1" 0 =
      .ok (.failed, { Listener.init with toRepost := ["E1"] },
           submittedLedger.setReposts .forward "E1" 1)
    ∧ ∃ L2 : Ledger,
        failed_round_iter .forward "E1" 4 Listener.init submittedLedger =
          .fatal "Too many reposts"
            ({ Listener.init with toRepost := List.replicate 3 "E1" }, L2) ∧
        (L2 .forward "E1").reposts = 3 :=
  ⟨(claim_C1_repost_budget .forward (fun _ => .failed) Listener.init
      submittedLedger "E1" (Or.inl rfl)).1 (by decide),
   ((claim_C1_repost_budget .forward (fun _ => .failed) Listener.init
      submittedLedger "E1" (Or.inl rfl)).2.2 rfl 4).2 (by decide)⟩

/-- C10: on budget exhaustion the per-event check raises before flagging
the event or touching the ledger — the fatal state is exactly the input
state; the array variant instead appends the event to `to_repost` (and
bumps its local count) before the budget check, so its fatal state
carries the flagged event, though the persisted ledger is untouched. -/
theorem claim_C10_fatal_leaves_state (jt : JobType) (statusOf : String → JobStatus)
    (lst : Listener) (L : Ledger) (event : String) (reposts : Nat)
    (hs : statusOf event = .failed ∨ statusOf event = .unknown)
    (hb : max_reposts ≤ reposts) :
    check_status_of_job jt statusOf lst L event reposts =
      .fatal "Too many reposts" (statusOf event, lst, L)
    ∧ ∀ (rest : List JobStatus) (ev : Option String) (r : Nat)
        (slst : SmListener) (SL : SmLedger),
        max_reposts ≤ r + 1 →
        check_status_of_job_array (.failed :: rest) ev r slst SL =
          .fatal "Too many reposts"
            (none, { slst with toRepost := slst.toRepost ++ [ev] }, SL) := by
  constructor
  · exact check_status_of_job_fatal jt statusOf lst L event reposts hs hb
  · intro rest ev r slst SL hr
    unfold check_status_of_job_array check_array_go
    simp [hr]

/-- Witness for C10 at concrete inputs: repost count 3 for the per-event
check (fatal, state unchanged), and count 2 with a leading failed
sub-task for the array check (fatal, event already flagged). -/
theorem claim_C10_fatal_leaves_state_witness :
    check_status_of_job .forward (fun _ => .failed) Listener.init submittedLedger
        "E1" 3 =
      .fatal "Too many reposts" (.failed, Listener.init, submittedLedger)
    ∧ check_status_of_job_array [.failed, .finished] (some "E1") 2
        SmListener.init smSubmittedLedger =
      .fatal "Too many reposts"
        (none, { SmListener.init with toRepost := [some "E1"] },
         smSubmittedLedger) :=
  ⟨(claim_C10_fatal_leaves_state .forward (fun _ => .failed) Listener.init
      submittedLedger "E1" 3 (Or.inl rfl) (by decide)).1,
   (claim_C10_fatal_leaves_state .forward (fun _ => .failed) Listener.init
      submittedLedger "E1" 3 (Or.inl rfl) (by decide)).2
     [.finished] (some "E1") 2 SmListener.init smSubmittedLedger (by decide)⟩

end Inversionson

namespace Inversionson

/-! ### Loop lemmas for `__check_status_of_job_array` -/

theorem check_array_go_i_ne_zero (event : Option String) :
    ∀ (l : List JobStatus) (a : ArrAcc), a.i ≠ 0 →
      ∃ a2, check_array_go event a l = .ok a2 ∧
        a2.listener = a.listener ∧ a2.ledger = a.ledger := by
  intro l
  induction l with
  | nil => intro a ha; exact ⟨a, rfl, rfl, rfl⟩
  | cons s rest ih =>
      intro a ha
      cases s with
      | finished => exact ih { a with params := a.params + 1 } ha
      | pending => exact ih { a with pending := a.pending + 1 } ha
      | running => exact ih { a with running := a.running + 1 } ha
      | failed =>
          obtain ⟨a2, h1, h2, h3⟩ := ih a ha
          refine ⟨a2, ?_, h2, h3⟩
          simpa [check_array_go, ha] using h1
      | unknown =>
          obtain ⟨a2, h1, h2, h3⟩ := ih a ha
          refine ⟨a2, ?_, h2, h3⟩
          simpa [check_array_go, ha] using h1
      | cancelled => exact ih a ha
      | other s2 => exact ih a ha

theorem check_array_go_params_count (event : Option String) :
    ∀ (l : List JobStatus) (a a2 : ArrAcc), check_array_go event a l = .ok a2 →
      a2.params = a.params + l.countP (fun s => decide (s = .finished)) := by
  intro l
  induction l with
  | nil =>
      intro a a2 h
      cases h
      simp
  | cons s rest ih =>
      intro a a2 h
      cases s with
      | finished =>
          have := ih { a with params := a.params + 1 } a2 h
          rw [this]
          simp [List.countP_cons]
          omega
      | pending =>
          have := ih { a with pending := a.pending + 1 } a2 h
          rw [this]
          simp [List.countP_cons]
      | running =>
          have := ih { a with running := a.running + 1 } a2 h
          rw [this]
          simp [List.countP_cons]
      | failed =>
          rw [show check_array_go event a (.failed :: rest) =
              (if a.i = 0 then
                let lst := { a.listener with toRepost := a.listener.toRepost ++ [event] }
                let reposts := a.reposts + 1
                if max_reposts ≤ reposts then
                  .fatal "Too many reposts" { a with listener := lst, reposts := reposts }
                else
                  check_array_go event
                    { a with listener := lst, reposts := reposts,
                             ledger := a.ledger.setReposts event reposts,
                             i := a.i + 1 } rest
              else check_array_go event a rest) from rfl] at h
          by_cases hi : a.i = 0
          · rw [if_pos hi] at h
            by_cases hb : max_reposts ≤ a.reposts + 1
            · simp only [if_pos hb] at h
              cases h
            · simp only [if_neg hb] at h
              have := ih _ a2 h
              rw [this]
              simp [List.countP_cons]
          · rw [if_neg hi] at h
            have := ih a a2 h
            rw [this]
            simp [List.countP_cons]
      | unknown =>
          rw [show check_array_go event a (.unknown :: rest) =
              (if a.i = 0 then
                let lst := { a.listener with toRepost := a.listener.toRepost ++ [event] }
                let reposts := a.reposts + 1
                if max_reposts ≤ reposts then
                  .fatal "Too many reposts" { a with listener := lst, reposts := reposts }
                else
                  check_array_go event
                    { a with listener := lst, reposts := reposts,
                             ledger := a.ledger.setReposts event reposts,
                             i := a.i + 1 } rest
              else check_array_go event a rest) from rfl] at h
          by_cases hi : a.i = 0
          · rw [if_pos hi] at h
            by_cases hb : max_reposts ≤ a.reposts + 1
            · simp only [if_pos hb] at h
              cases h
            · simp only [if_neg hb] at h
              have := ih _ a2 h
              rw [this]
              simp [List.countP_cons]
          · rw [if_neg hi] at h
            have := ih a a2 h
            rw [this]
            simp [List.countP_cons]
      | cancelled =>
          have := ih a a2 h
          rw [this]
          simp [List.countP_cons]
      | other s2 =>
          have := ih a a2 h
          rw [this]
          simp [List.countP_cons]

end Inversionson

namespace Inversionson

theorem check_array_go_all_finished (event : Option String) :
    ∀ (l : List JobStatus) (a : ArrAcc), (∀ s ∈ l, s = .finished) →
      ∃ a2, check_array_go event a l = .ok a2 ∧
        a2.params = a.params + l.length ∧
        a2.listener = a.listener ∧ a2.ledger = a.ledger := by
  intro l
  induction l with
  | nil => intro a _; exact ⟨a, rfl, by simp, rfl, rfl⟩
  | cons s rest ih =>
      intro a hall
      have hs : s = .finished := hall s (List.mem_cons_self s rest)
      subst hs
      obtain ⟨a2, h1, h2, h3, h4⟩ :=
        ih { a with params := a.params + 1 } (fun s hs => hall s (List.mem_cons_of_mem _ hs))
      refine ⟨a2, h1, ?_, h3, h4⟩
      simp at h2
      rw [h2]
      simp
      omega

theorem check_array_go_first_failure (event : Option String) :
    ∀ (l : List JobStatus) (a : ArrAcc), a.i = 0 → a.reposts + 1 < max_reposts →
      (∃ s ∈ l, s = .failed ∨ s = .unknown) →
      ∃ a2, check_array_go event a l = .ok a2 ∧
        a2.listener.toRepost = a.listener.toRepost ++ [event] ∧
        a2.listener.alreadyRetrieved = a.listener.alreadyRetrieved ∧
        a2.listener.retrievedNow = a.listener.retrievedNow ∧
        a2.ledger = a.ledger.setReposts event (a.reposts + 1) := by
  intro l
  induction l with
  | nil => intro a _ _ hfail; simp at hfail
  | cons s rest ih =>
      intro a hi hb hfail
      by_cases hs : s = .failed ∨ s = .unknown
      · have hgo : check_array_go event a (s :: rest) =
            check_array_go event
              { a with
                listener :=
                  { a.listener with toRepost := a.listener.toRepost ++ [event] },
                reposts := a.reposts + 1,
                ledger := a.ledger.setReposts event (a.reposts + 1),
                i := a.i + 1 } rest := by
          rcases hs with hs | hs <;> subst hs <;>
            simp [check_array_go, hi, Nat.not_le.mpr hb]
        obtain ⟨a2, h1, h2, h3⟩ :=
          check_array_go_i_ne_zero event rest
            { a with
              listener :=
                { a.listener with toRepost := a.listener.toRepost ++ [event] },
              reposts := a.reposts + 1,
              ledger := a.ledger.setReposts event (a.reposts + 1),
              i := a.i + 1 } (by simp)
        refine ⟨a2, ?_, ?_, ?_, ?_, ?_⟩
        · rw [hgo, h1]
        · rw [h2]
        · rw [h2]
        · rw [h2]
        · rw [h3]
      · push_neg at hs
        have hfail2 : ∃ s2 ∈ rest, s2 = .failed ∨ s2 = .unknown := by
          obtain ⟨s2, hmem, hor⟩ := hfail
          rcases List.mem_cons.mp hmem with heq | hmem2
          · subst heq
            rcases hor with h | h
            · exact absurd h hs.1
            · exact absurd h hs.2
          · exact ⟨s2, hmem2, hor⟩
        cases s with
        | finished => exact ih { a with params := a.params + 1 } hi hb hfail2
        | pending => exact ih { a with pending := a.pending + 1 } hi hb hfail2
        | running => exact ih { a with running := a.running + 1 } hi hb hfail2
        | failed => exact absurd rfl hs.1
        | unknown => exact absurd rfl hs.2
        | cancelled => exact ih a hi hb hfail2
        | other s2 => exact ih a hi hb hfail2

end Inversionson

namespace Inversionson

theorem SmListener.ext_fields {x y : SmListener}
    (h1 : x.alreadyRetrieved = y.alreadyRetrieved)
    (h2 : x.retrievedNow = y.retrievedNow)
    (h3 : x.toRepost = y.toRepost) : x = y := by
  cases x; cases y
  simp only at h1 h2 h3
  subst h1; subst h2; subst h3
  rfl

/-- C2 (counterexample): in a mono-batch smoothing array of three
sub-tasks where exactly the middle one failed and the other two
finished, the monitoring round marks *nothing* retrieved — neither the
batch nor any per-event record — and flags the whole array job (the
`None` key) for resubmission, not just the failing sub-task. -/
theorem claim_C2_counterexample :
    (monitor_job_array_mono [.finished, .failed, .finished] ["E1", "E2", "E3"]
        SmListener.init smSubmittedLedger).state.1.retrievedNow = []
    ∧ (monitor_job_array_mono [.finished, .failed, .finished] ["E1", "E2", "E3"]
        SmListener.init smSubmittedLedger).state.1.toRepost = [none]
    ∧ ((monitor_job_array_mono [.finished, .failed, .finished] ["E1", "E2", "E3"]
        SmListener.init smSubmittedLedger).state.2 (some "E1")).retrieved = false
    ∧ ((monitor_job_array_mono [.finished, .failed, .finished] ["E1", "E2", "E3"]
        SmListener.init smSubmittedLedger).state.2 (some "E3")).retrieved = false
    ∧ ((monitor_job_array_mono [.finished, .failed, .finished] ["E1", "E2", "E3"]
        SmListener.init smSubmittedLedger).state.2 none).reposts = 1 := by
  decide

/-- C2 (amended): the array listener itemises status only to count
sub-tasks; any `failed`/`unknown` sub-task causes the *whole event*
(`None`, i.e. the entire mono-batch array job) to be flagged for
resubmission with its repost count bumped, no part of the batch is
marked retrieved, and the batch is marked retrieved-now only when every
sub-task reports `finished`. -/
theorem claim_C2_array_whole_event_reposted
    (statusArr : List JobStatus) (events : List String)
    (lst : SmListener) (L : SmLedger)
    (hnr : (L none).retrieved = false)
    (hbud : (L none).reposts + 1 < max_reposts) :
    ((∃ s ∈ statusArr, s = .failed ∨ s = .unknown) →
      monitor_job_array_mono statusArr events lst L =
        .ok ({ lst with toRepost := lst.toRepost ++ [none] },
             L.setReposts none ((L none).reposts + 1)))
    ∧ ((∀ s ∈ statusArr, s = .finished) →
      monitor_job_array_mono statusArr events lst L =
        .ok ({ lst with retrievedNow := events }, L)) := by
  constructor
  · intro hfail
    obtain ⟨a2, hgo, htr, har, hrn, hled⟩ :=
      check_array_go_first_failure none statusArr
        { params := 0, pending := 0, running := 0, i := 0,
          reposts := (L none).reposts, listener := lst, ledger := L }
        rfl hbud hfail
    have hcount := check_array_go_params_count none statusArr _ a2 hgo
    have hlt : a2.params ≠ statusArr.length := by
      rw [hcount]
      simp only [Nat.zero_add]
      intro heq
      have hall := List.countP_eq_length.mp heq
      obtain ⟨s, hmem, hor⟩ := hfail
      have := hall s hmem
      rcases hor with h | h <;> subst h <;> simp at this
    have hlst : a2.listener = { lst with toRepost := lst.toRepost ++ [none] } :=
      SmListener.ext_fields har hrn htr
    unfold monitor_job_array_mono check_status_of_job_array
    rw [hnr]
    simp only [Bool.false_eq_true, if_false]
    rw [hgo]
    simp only [if_neg hlt]
    have : (none : Option JobStatus) = some JobStatus.finished ↔ False := by simp
    simp only [this, if_false, hlst, hled]
  · intro hall
    obtain ⟨a2, hgo, hparams, hlst, hled⟩ :=
      check_array_go_all_finished none statusArr
        { params := 0, pending := 0, running := 0, i := 0,
          reposts := (L none).reposts, listener := lst, ledger := L } hall
    unfold monitor_job_array_mono check_status_of_job_array
    rw [hnr]
    simp only [Bool.false_eq_true, if_false]
    rw [hgo]
    simp only at hparams
    simp only [hparams, Nat.zero_add, if_pos rfl, hlst, hled]
    simp

/-- Witness for the amended C2 at concrete inputs: the failing array of
the counterexample is wholly reposted, and an all-finished array marks
the whole batch retrieved-now. -/
theorem claim_C2_array_whole_event_reposted_witness :
    monitor_job_array_mono [.finished, .failed, .finished] ["E1", "E2", "E3"]
        SmListener.init smSubmittedLedger =
      .ok ({ SmListener.init with toRepost := [none] },
           smSubmittedLedger.setReposts none 1)
    ∧ monitor_job_array_mono [.finished, .finished] ["E1", "E2"]
        SmListener.init smSubmittedLedger =
      .ok ({ SmListener.init with retrievedNow := ["E1", "E2"] },
           smSubmittedLedger) :=
  ⟨(claim_C2_array_whole_event_reposted [.finished, .failed, .finished]
      ["E1", "E2", "E3"] SmListener.init smSubmittedLedger rfl (by decide)).1
      ⟨.failed, by decide, Or.inl rfl⟩,
   (claim_C2_array_whole_event_reposted [.finished, .finished]
      ["E1", "E2"] SmListener.init smSubmittedLedger rfl (by decide)).2
      (by decide)⟩

end Inversionson

namespace Inversionson

/-! ### Per-event characterisation of one `__monitor_jobs` step -/

theorem monitor_step_retrieved_case (jt : JobType) (statusOf : String → JobStatus)
    (a : MonAcc) (e : String) (hret : (a.ledger jt e).retrieved = true) :
    monitor_step jt statusOf a e =
      .ok { a with
            listener :=
              { a.listener with
                alreadyRetrieved := a.listener.alreadyRetrieved ++ [e] },
            finishedCount := a.finishedCount + 1 } := by
  unfold monitor_step
  simp [hret]

theorem monitor_step_unsubmitted_case (jt : JobType) (statusOf : String → JobStatus)
    (a : MonAcc) (e : String) (hret : (a.ledger jt e).retrieved = false)
    (hsub : (a.ledger jt e).submitted = false) :
    monitor_step jt statusOf a e =
      .ok { a with
            listener :=
              { a.listener with
                notSubmitted := a.listener.notSubmitted ++ [e] } } := by
  unfold monitor_step
  simp [hret, hsub]

theorem monitor_step_finished_case (jt : JobType) (statusOf : String → JobStatus)
    (a : MonAcc) (e : String) (hret : (a.ledger jt e).retrieved = false)
    (hsub : (a.ledger jt e).submitted = true) (hst : statusOf e = .finished)
    (hjt : jt ≠ .gradient_interp) :
    monitor_step jt statusOf a e =
      .ok { a with
            listener :=
              { a.listener with
                retrievedNow := a.listener.retrievedNow ++ [e] },
            finishedCount := a.finishedCount + 1,
            queried := a.queried ++ [e] } := by
  unfold monitor_step check_status_of_job
  simp [hret, hsub, hst, hjt]

theorem monitor_step_finished_gradient_case (statusOf : String → JobStatus)
    (a : MonAcc) (e : String)
    (hret : (a.ledger .gradient_interp e).retrieved = false)
    (hsub : (a.ledger .gradient_interp e).submitted = true)
    (hst : statusOf e = .finished) :
    monitor_step .gradient_interp statusOf a e =
      .ok { a with
            listener :=
              { a.listener with
                retrievedNow := a.listener.retrievedNow ++ [e] },
            finishedCount := a.finishedCount + 1,
            queried := a.queried ++ [e],
            ledger := a.ledger.setRetrieved .gradient_interp e true } := by
  unfold monitor_step check_status_of_job
  simp [hret, hsub, hst]

theorem monitor_step_repost_case (jt : JobType) (statusOf : String → JobStatus)
    (a : MonAcc) (e : String) (hret : (a.ledger jt e).retrieved = false)
    (hsub : (a.ledger jt e).submitted = true)
    (hst : statusOf e = .failed ∨ statusOf e = .unknown)
    (hb : (a.ledger jt e).reposts < max_reposts) :
    monitor_step jt statusOf a e =
      .ok { a with
            listener :=
              { a.listener with toRepost := a.listener.toRepost ++ [e] },
            ledger := a.ledger.setReposts jt e ((a.ledger jt e).reposts + 1),
            queried := a.queried ++ [e] } := by
  have hcheck := check_status_of_job_repost jt statusOf a.listener a.ledger e
    (a.ledger jt e).reposts hst hb
  rcases hst with hst | hst <;> simp [monitor_step, hret, hsub, hcheck, hst]

theorem monitor_step_fatal_case (jt : JobType) (statusOf : String → JobStatus)
    (a : MonAcc) (e : String) (hret : (a.ledger jt e).retrieved = false)
    (hsub : (a.ledger jt e).submitted = true)
    (hst : statusOf e = .failed ∨ statusOf e = .unknown)
    (hb : max_reposts ≤ (a.ledger jt e).reposts) :
    monitor_step jt statusOf a e =
      .fatal "Too many reposts" { a with queried := a.queried ++ [e] } := by
  have hcheck := check_status_of_job_fatal jt statusOf a.listener a.ledger e
    (a.ledger jt e).reposts hst hb
  simp [monitor_step, hret, hsub, hcheck]

theorem monitor_step_pending_case (jt : JobType) (statusOf : String → JobStatus)
    (a : MonAcc) (e : String) (hret : (a.ledger jt e).retrieved = false)
    (hsub : (a.ledger jt e).submitted = true) (hst : statusOf e = .pending) :
    monitor_step jt statusOf a e =
      .ok { a with pendingCount := a.pendingCount + 1,
                   queried := a.queried ++ [e] } := by
  unfold monitor_step check_status_of_job
  simp [hret, hsub, hst]

theorem monitor_step_running_case (jt : JobType) (statusOf : String → JobStatus)
    (a : MonAcc) (e : String) (hret : (a.ledger jt e).retrieved = false)
    (hsub : (a.ledger jt e).submitted = true) (hst : statusOf e = .running) :
    monitor_step jt statusOf a e =
      .ok { a with runningCount := a.runningCount + 1,
                   queried := a.queried ++ [e] } := by
  unfold monitor_step check_status_of_job
  simp [hret, hsub, hst]

theorem monitor_step_cancelled_case (jt : JobType) (statusOf : String → JobStatus)
    (a : MonAcc) (e : String) (hret : (a.ledger jt e).retrieved = false)
    (hsub : (a.ledger jt e).submitted = true) (hst : statusOf e = .cancelled) :
    monitor_step jt statusOf a e = .ok { a with queried := a.queried ++ [e] } := by
  unfold monitor_step check_status_of_job
  simp [hret, hsub, hst]

theorem monitor_step_other_case (jt : JobType) (statusOf : String → JobStatus)
    (a : MonAcc) (e : String) (s : String)
    (hret : (a.ledger jt e).retrieved = false)
    (hsub : (a.ledger jt e).submitted = true) (hst : statusOf e = .other s) :
    monitor_step jt statusOf a e = .ok { a with queried := a.queried ++ [e] } := by
  unfold monitor_step check_status_of_job
  simp [hret, hsub, hst]

end Inversionson

namespace Inversionson

/-- C4: in one monitoring round each unretrieved event falls into exactly
one category, visible in the exact post-state of its step: unsubmitted
events are recorded in `not_submitted` without a scheduler query;
`finished` events join `events_retrieved_now`; `failed`/`unknown` events
under the repost budget join `to_repost` with the persisted count bumped;
`pending`/`running` events only bump the respective counter; `cancelled`
and unrecognised statuses leave every list and the ledger unchanged. -/
theorem claim_C4_classification (jt : JobType) (statusOf : String → JobStatus)
    (a : MonAcc) (e : String) (hret : (a.ledger jt e).retrieved = false) :
    ((a.ledger jt e).submitted = false →
      monitor_step jt statusOf a e =
        .ok { a with
              listener :=
                { a.listener with
                  notSubmitted := a.listener.notSubmitted ++ [e] } })
    ∧ ((a.ledger jt e).submitted = true → statusOf e = .finished →
        jt ≠ .gradient_interp →
      monitor_step jt statusOf a e =
        .ok { a with
              listener :=
                { a.listener with
                  retrievedNow := a.listener.retrievedNow ++ [e] },
              finishedCount := a.finishedCount + 1,
              queried := a.queried ++ [e] })
    ∧ ((a.ledger jt e).submitted = true →
        (statusOf e = .failed ∨ statusOf e = .unknown) →
        (a.ledger jt e).reposts < max_reposts →
      monitor_step jt statusOf a e =
        .ok { a with
              listener :=
                { a.listener with toRepost := a.listener.toRepost ++ [e] },
              ledger := a.ledger.setReposts jt e ((a.ledger jt e).reposts + 1),
              queried := a.queried ++ [e] })
    ∧ ((a.ledger jt e).submitted = true → statusOf e = .pending →
      monitor_step jt statusOf a e =
        .ok { a with pendingCount := a.pendingCount + 1,
                     queried := a.queried ++ [e] })
    ∧ ((a.ledger jt e).submitted = true → statusOf e = .running →
      monitor_step jt statusOf a e =
        .ok { a with runningCount := a.runningCount + 1,
                     queried := a.queried ++ [e] })
    ∧ ((a.ledger jt e).submitted = true → statusOf e = .cancelled →
      monitor_step jt statusOf a e = .ok { a with queried := a.queried ++ [e] })
    ∧ (∀ s, (a.ledger jt e).submitted = true → statusOf e = .other s →
      monitor_step jt statusOf a e = .ok { a with queried := a.queried ++ [e] }) := by
  refine ⟨?_, ?_, ?_, ?_, ?_, ?_, ?_⟩
  · intro hsub
    exact monitor_step_unsubmitted_case jt statusOf a e hret hsub
  · intro hsub hst hjt
    exact monitor_step_finished_case jt statusOf a e hret hsub hst hjt
  · intro hsub hst hb
    exact monitor_step_repost_case jt statusOf a e hret hsub hst hb
  · intro hsub hst
    exact monitor_step_pending_case jt statusOf a e hret hsub hst
  · intro hsub hst
    exact monitor_step_running_case jt statusOf a e hret hsub hst
  · intro hsub hst
    exact monitor_step_cancelled_case jt statusOf a e hret hsub hst
  · intro s hsub hst
    exact monitor_step_other_case jt statusOf a e s hret hsub hst

/-- Witness for C4 at concrete inputs: an unsubmitted event is recorded
in `not_submitted` with an empty query trace, and a cancelled event
leaves the whole accumulator unchanged apart from the query trace. -/
theorem claim_C4_classification_witness :
    monitor_step .forward (fun _ => .cancelled)
        { listener := Listener.init, ledger := freshLedger, finishedCount := 0,
          runningCount := 0, pendingCount := 0, queried := [] } "E1" =
      .ok { listener := { Listener.init with notSubmitted := ["E1"] },
            ledger := freshLedger, finishedCount := 0, runningCount := 0,
            pendingCount := 0, queried := [] }
    ∧ monitor_step .forward (fun _ => .cancelled)
        { listener := Listener.init, ledger := submittedLedger, finishedCount := 0,
          runningCount := 0, pendingCount := 0, queried := [] } "E1" =
      .ok { listener := Listener.init, ledger := submittedLedger,
            finishedCount := 0, runningCount := 0, pendingCount := 0,
            queried := ["E1"] } :=
  ⟨(claim_C4_classification .forward (fun _ => .cancelled)
      { listener := Listener.init, ledger := freshLedger, finishedCount := 0,
        runningCount := 0, pendingCount := 0, queried := [] } "E1" rfl).1 rfl,
   (claim_C4_classification .forward (fun _ => .cancelled)
      { listener := Listener.init, ledger := submittedLedger, finishedCount := 0,
        runningCount := 0, pendingCount := 0, queried := [] } "E1" rfl).2.2.2.2.2.1
      rfl rfl⟩

end Inversionson

namespace Inversionson

/-! ### The listener never writes `retrieved` except for gradient interpolation -/

theorem monitor_step_preserves_retrieved (jt : JobType)
    (statusOf : String → JobStatus) (a : MonAcc) (e : String)
    (hjt : jt ≠ .gradient_interp) (jt2 : JobType) (e2 : String) :
    (((monitor_step jt statusOf a e).state).ledger jt2 e2).retrieved
      = (a.ledger jt2 e2).retrieved := by
  by_cases hr : (a.ledger jt e).retrieved = true
  · rw [monitor_step_retrieved_case jt statusOf a e hr]; rfl
  · have hr2 : (a.ledger jt e).retrieved = false := by
      simpa using hr
    by_cases hsub : (a.ledger jt e).submitted = true
    · cases hst : statusOf e with
      | pending => rw [monitor_step_pending_case jt statusOf a e hr2 hsub hst]; rfl
      | running => rw [monitor_step_running_case jt statusOf a e hr2 hsub hst]; rfl
      | finished =>
          rw [monitor_step_finished_case jt statusOf a e hr2 hsub hst hjt]; rfl
      | failed =>
          by_cases hb : (a.ledger jt e).reposts < max_reposts
          · rw [monitor_step_repost_case jt statusOf a e hr2 hsub (Or.inl hst) hb]
            exact Ledger.setReposts_retrieved a.ledger jt e _ jt2 e2
          · rw [monitor_step_fatal_case jt statusOf a e hr2 hsub (Or.inl hst)
              (Nat.le_of_not_lt hb)]
            rfl
      | unknown =>
          by_cases hb : (a.ledger jt e).reposts < max_reposts
          · rw [monitor_step_repost_case jt statusOf a e hr2 hsub (Or.inr hst) hb]
            exact Ledger.setReposts_retrieved a.ledger jt e _ jt2 e2
          · rw [monitor_step_fatal_case jt statusOf a e hr2 hsub (Or.inr hst)
              (Nat.le_of_not_lt hb)]
            rfl
      | cancelled => rw [monitor_step_cancelled_case jt statusOf a e hr2 hsub hst]; rfl
      | other s => rw [monitor_step_other_case jt statusOf a e s hr2 hsub hst]; rfl
    · have hsub2 : (a.ledger jt e).submitted = false := by
        simpa using hsub
      rw [monitor_step_unsubmitted_case jt statusOf a e hr2 hsub2]; rfl

theorem monitor_fold_preserves_retrieved (jt : JobType)
    (statusOf : String → JobStatus) (hjt : jt ≠ .gradient_interp)
    (jt2 : JobType) (e2 : String) :
    ∀ (l : List String) (a : MonAcc),
      (((monitor_fold jt statusOf a l).state).ledger jt2 e2).retrieved
        = (a.ledger jt2 e2).retrieved := by
  intro l
  induction l with
  | nil => intro a; rfl
  | cons e rest ih =>
      intro a
      have hstep := monitor_step_preserves_retrieved jt statusOf a e hjt jt2 e2
      unfold monitor_fold
      cases hs : monitor_step jt statusOf a e with
      | fatal msg a2 =>
          rw [hs] at hstep
          exact hstep
      | ok a2 =>
          rw [hs] at hstep
          rw [ih a2]
          exact hstep

/-- C7 (counterexample): for the `gradient_interp` job type the listener
itself persists `retrieved=True` the moment it observes `finished`,
before any orchestrator side effect — the input record has
`retrieved=False` and the record after the single monitoring round has
`retrieved=True`. -/
theorem claim_C7_counterexample :
    (submittedLedger .gradient_interp "E1").retrieved = false
    ∧ ((monitor_jobs .gradient_interp (fun _ => .finished) ["E1"] Listener.init
        submittedLedger).state.ledger .gradient_interp "E1").retrieved = true := by
  decide

/-- C7 (amended): for every job type except `gradient_interp` the
listener never writes any `retrieved` field — after a monitoring round
(whether it completed or raised), every record's `retrieved` flag is
exactly what it was before; observing `finished` only records the event
in `events_retrieved_now`, deferring the ledger write to the caller. -/
theorem claim_C7_listener_defers_retrieved (jt : JobType)
    (statusOf : String → JobStatus) (events : List String)
    (lst : Listener) (L : Ledger) (hjt : jt ≠ .gradient_interp)
    (jt2 : JobType) (e2 : String) :
    (((monitor_jobs jt statusOf events lst L).state).ledger jt2 e2).retrieved
      = (L jt2 e2).retrieved := by
  unfold monitor_jobs
  exact monitor_fold_preserves_retrieved jt statusOf hjt jt2 e2 _ _

/-- Witness for the amended C7: a forward job observed `finished` leaves
its ledger `retrieved` flag untouched (still `false`) after the round. -/
theorem claim_C7_listener_defers_retrieved_witness :
    (((monitor_jobs .forward (fun _ => .finished) ["E1"] Listener.init
        submittedLedger).state).ledger .forward "E1").retrieved = false :=
  (claim_C7_listener_defers_retrieved .forward (fun _ => .finished) ["E1"]
    Listener.init submittedLedger (by decide) .forward "E1").trans rfl

end Inversionson

namespace Inversionson

/-- Frame lemma for one listener step: each in-memory list either stays
or gains exactly the processed event at its end, and no other event's
ledger record is touched. -/
theorem monitor_step_frame (jt : JobType) (statusOf : String → JobStatus)
    (a : MonAcc) (e : String) :
    ((monitor_step jt statusOf a e).state.queried = a.queried ∨
      (monitor_step jt statusOf a e).state.queried = a.queried ++ [e])
    ∧ ((monitor_step jt statusOf a e).state.listener.alreadyRetrieved
          = a.listener.alreadyRetrieved ∨
        (monitor_step jt statusOf a e).state.listener.alreadyRetrieved
          = a.listener.alreadyRetrieved ++ [e])
    ∧ ((monitor_step jt statusOf a e).state.listener.retrievedNow
          = a.listener.retrievedNow ∨
        (monitor_step jt statusOf a e).state.listener.retrievedNow
          = a.listener.retrievedNow ++ [e])
    ∧ ((monitor_step jt statusOf a e).state.listener.toRepost
          = a.listener.toRepost ∨
        (monitor_step jt statusOf a e).state.listener.toRepost
          = a.listener.toRepost ++ [e])
    ∧ ((monitor_step jt statusOf a e).state.listener.notSubmitted
          = a.listener.notSubmitted ∨
        (monitor_step jt statusOf a e).state.listener.notSubmitted
          = a.listener.notSubmitted ++ [e])
    ∧ (∀ (jt2 : JobType) (e2 : String), e2 ≠ e →
        (monitor_step jt statusOf a e).state.ledger jt2 e2 = a.ledger jt2 e2) := by
  have hother : ∀ (L : Ledger) (r : JobRecord) (jt2 : JobType) (e2 : String),
      e2 ≠ e → (L.set jt e r) jt2 e2 = L jt2 e2 := by
    intro L r jt2 e2 he
    exact Ledger.set_other L jt e r jt2 e2 (fun h => he h.2)
  by_cases hr : (a.ledger jt e).retrieved = true
  · rw [monitor_step_retrieved_case jt statusOf a e hr]
    exact ⟨Or.inl rfl, Or.inr rfl, Or.inl rfl, Or.inl rfl, Or.inl rfl,
      fun _ _ _ => rfl⟩
  · have hr2 : (a.ledger jt e).retrieved = false := by simpa using hr
    by_cases hsub : (a.ledger jt e).submitted = true
    · cases hst : statusOf e with
      | pending =>
          rw [monitor_step_pending_case jt statusOf a e hr2 hsub hst]
          exact ⟨Or.inr rfl, Or.inl rfl, Or.inl rfl, Or.inl rfl, Or.inl rfl,
            fun _ _ _ => rfl⟩
      | running =>
          rw [monitor_step_running_case jt statusOf a e hr2 hsub hst]
          exact ⟨Or.inr rfl, Or.inl rfl, Or.inl rfl, Or.inl rfl, Or.inl rfl,
            fun _ _ _ => rfl⟩
      | finished =>
          by_cases hjt : jt = .gradient_interp
          · subst hjt
            rw [monitor_step_finished_gradient_case statusOf a e hr2 hsub hst]
            refine ⟨Or.inr rfl, Or.inl rfl, Or.inr rfl, Or.inl rfl, Or.inl rfl,
              fun jt2 e2 he => ?_⟩
            exact hother a.ledger _ jt2 e2 he
          · rw [monitor_step_finished_case jt statusOf a e hr2 hsub hst hjt]
            exact ⟨Or.inr rfl, Or.inl rfl, Or.inr rfl, Or.inl rfl, Or.inl rfl,
              fun _ _ _ => rfl⟩
      | failed =>
          by_cases hb : (a.ledger jt e).reposts < max_reposts
          · rw [monitor_step_repost_case jt statusOf a e hr2 hsub (Or.inl hst) hb]
            refine ⟨Or.inr rfl, Or.inl rfl, Or.inl rfl, Or.inr rfl, Or.inl rfl,
              fun jt2 e2 he => ?_⟩
            exact hother a.ledger _ jt2 e2 he
          · rw [monitor_step_fatal_case jt statusOf a e hr2 hsub (Or.inl hst)
              (Nat.le_of_not_lt hb)]
            exact ⟨Or.inr rfl, Or.inl rfl, Or.inl rfl, Or.inl rfl, Or.inl rfl,
              fun _ _ _ => rfl⟩
      | unknown =>
          by_cases hb : (a.ledger jt e).reposts < max_reposts
          · rw [monitor_step_repost_case jt statusOf a e hr2 hsub (Or.inr hst) hb]
            refine ⟨Or.inr rfl, Or.inl rfl, Or.inl rfl, Or.inr rfl, Or.inl rfl,
              fun jt2 e2 he => ?_⟩
            exact hother a.ledger _ jt2 e2 he
          · rw [monitor_step_fatal_case jt statusOf a e hr2 hsub (Or.inr hst)
              (Nat.le_of_not_lt hb)]
            exact ⟨Or.inr rfl, Or.inl rfl, Or.inl rfl, Or.inl rfl, Or.inl rfl,
              fun _ _ _ => rfl⟩
      | cancelled =>
          rw [monitor_step_cancelled_case jt statusOf a e hr2 hsub hst]
          exact ⟨Or.inr rfl, Or.inl rfl, Or.inl rfl, Or.inl rfl, Or.inl rfl,
            fun _ _ _ => rfl⟩
      | other s =>
          rw [monitor_step_other_case jt statusOf a e s hr2 hsub hst]
          exact ⟨Or.inr rfl, Or.inl rfl, Or.inl rfl, Or.inl rfl, Or.inl rfl,
            fun _ _ _ => rfl⟩
    · have hsub2 : (a.ledger jt e).submitted = false := by simpa using hsub
      rw [monitor_step_unsubmitted_case jt statusOf a e hr2 hsub2]
      exact ⟨Or.inl rfl, Or.inl rfl, Or.inl rfl, Or.inl rfl, Or.inr rfl,
        fun _ _ _ => rfl⟩

end Inversionson

namespace Inversionson

theorem events_left_excludes (events already : List String) (e : String)
    (h : e ∈ already) : e ∉ events_left events already := by
  intro hmem
  unfold events_left at hmem
  rw [List.mem_dedup, List.mem_filter] at hmem
  have := hmem.2
  simp at this
  exact this h

theorem events_left_mem (events already : List String) (e : String)
    (h1 : e ∈ events) (h2 : e ∉ already) : e ∈ events_left events already := by
  unfold events_left
  rw [List.mem_dedup, List.mem_filter]
  exact ⟨h1, by simpa using h2⟩

theorem monitor_fold_retrieved_cached (jt : JobType)
    (statusOf : String → JobStatus) (e : String) :
    ∀ (l : List String) (a : MonAcc),
      (a.ledger jt e).retrieved = true → e ∉ a.queried →
      (((monitor_fold jt statusOf a l).state.ledger jt e).retrieved = true)
      ∧ e ∉ (monitor_fold jt statusOf a l).state.queried
      ∧ (e ∈ a.listener.alreadyRetrieved →
          e ∈ (monitor_fold jt statusOf a l).state.listener.alreadyRetrieved)
      ∧ (∀ a2, monitor_fold jt statusOf a l = .ok a2 → e ∈ l →
          e ∈ a2.listener.alreadyRetrieved) := by
  intro l
  induction l with
  | nil =>
      intro a hret hq
      refine ⟨hret, hq, fun h => h, fun a2 h2 h3 => absurd h3 (by simp)⟩
  | cons e1 rest ih =>
      intro a hret hq
      by_cases heq : e1 = e
      · subst heq
        have hstep := monitor_step_retrieved_case jt statusOf a e1 hret
        have hfold : monitor_fold jt statusOf a (e1 :: rest) =
            monitor_fold jt statusOf
              { a with
                listener :=
                  { a.listener with
                    alreadyRetrieved := a.listener.alreadyRetrieved ++ [e1] },
                finishedCount := a.finishedCount + 1 } rest := by
          conv_lhs => unfold monitor_fold
          rw [hstep]
        obtain ⟨ih1, ih2, ih3, ih4⟩ := ih
          { a with
            listener :=
              { a.listener with
                alreadyRetrieved := a.listener.alreadyRetrieved ++ [e1] },
            finishedCount := a.finishedCount + 1 } hret hq
        rw [hfold]
        refine ⟨ih1, ih2, ?_, ?_⟩
        · intro _
          exact ih3 (by simp)
        · intro a2 hok _
          have hmem := ih3 (by simp)
          rw [hok] at hmem
          exact hmem
      · have hframe := monitor_step_frame jt statusOf a e1
        cases hs : monitor_step jt statusOf a e1 with
        | fatal msg a2 =>
            have hfold : monitor_fold jt statusOf a (e1 :: rest) = .fatal msg a2 := by
              conv_lhs => unfold monitor_fold
              rw [hs]
            rw [hs] at hframe
            simp only [Res.state] at hframe
            rw [hfold]
            simp only [Res.state]
            have hled := hframe.2.2.2.2.2 jt e (fun h => heq h.symm)
            refine ⟨by rw [hled]; exact hret, ?_, ?_, ?_⟩
            · rcases hframe.1 with h | h <;> rw [h]
              · exact hq
              · simp only [List.mem_append, List.mem_singleton]
                rintro (h2 | h2)
                · exact hq h2
                · exact heq h2.symm
            · intro hmem
              rcases hframe.2.1 with h | h <;> rw [h]
              · exact hmem
              · simp [hmem]
            · intro a3 hok _
              cases hok
        | ok a2 =>
            have hfold : monitor_fold jt statusOf a (e1 :: rest) =
                monitor_fold jt statusOf a2 rest := by
              conv_lhs => unfold monitor_fold
              rw [hs]
            rw [hs] at hframe
            simp only [Res.state] at hframe
            have hled := hframe.2.2.2.2.2 jt e (fun h => heq h.symm)
            have hret2 : (a2.ledger jt e).retrieved = true := by
              rw [hled]; exact hret
            have hq2 : e ∉ a2.queried := by
              rcases hframe.1 with h | h <;> rw [h]
              · exact hq
              · simp only [List.mem_append, List.mem_singleton]
                rintro (h2 | h2)
                · exact hq h2
                · exact heq h2.symm
            obtain ⟨ih1, ih2, ih3, ih4⟩ := ih a2 hret2 hq2
            rw [hfold]
            refine ⟨ih1, ih2, ?_, ?_⟩
            · intro hmem
              refine ih3 ?_
              rcases hframe.2.1 with h | h <;> rw [h]
              · exact hmem
              · simp [hmem]
            · intro a3 hok hmem
              rcases List.mem_cons.mp hmem with h | h
              · exact absurd h.symm heq
              · exact ih4 a3 hok h

end Inversionson

namespace Inversionson

theorem monitor_jobs_retrieved_cached (jt : JobType)
    (statusOf : String → JobStatus) (events : List String)
    (lst : Listener) (L : Ledger) (e : String)
    (hret : (L jt e).retrieved = true) :
    (((monitor_jobs jt statusOf events lst L).state.ledger jt e).retrieved = true)
    ∧ e ∉ (monitor_jobs jt statusOf events lst L).state.queried
    ∧ (∀ a2, monitor_jobs jt statusOf events lst L = .ok a2 → e ∈ events →
        e ∈ a2.listener.alreadyRetrieved) := by
  obtain ⟨h1, h2, h3, h4⟩ := monitor_fold_retrieved_cached jt statusOf e
    (events_left events lst.alreadyRetrieved)
    { listener := lst, ledger := L,
      finishedCount := events.length -
        (events_left events lst.alreadyRetrieved).length,
      runningCount := 0, pendingCount := 0, queried := [] } hret (by simp)
  refine ⟨h1, h2, ?_⟩
  intro a2 hok hmem
  by_cases hcache : e ∈ lst.alreadyRetrieved
  · have hthis := h3 hcache
    have hok2 : monitor_fold jt statusOf
        { listener := lst, ledger := L,
          finishedCount := events.length -
            (events_left events lst.alreadyRetrieved).length,
          runningCount := 0, pendingCount := 0, queried := [] }
        (events_left events lst.alreadyRetrieved) = Res.ok a2 := hok
    rw [hok2] at hthis
    exact hthis
  · exact h4 a2 hok (events_left_mem events lst.alreadyRetrieved e hmem hcache)

theorem monitor_rounds_no_query (jt : JobType) (events : List String) (e : String) :
    ∀ (n : Nat) (oracle : Nat → String → JobStatus) (lst : Listener) (L : Ledger)
      (qs : List String), (L jt e).retrieved = true → e ∉ qs →
      e ∉ (monitor_rounds jt oracle events n lst L qs).state.2.2 := by
  intro n
  induction n with
  | zero =>
      intro oracle lst L qs _ hq
      exact hq
  | succ n ih =>
      intro oracle lst L qs hret hq
      obtain ⟨h1, h2, _⟩ :=
        monitor_jobs_retrieved_cached jt (oracle 0) events lst L e hret
      unfold monitor_rounds
      cases hm : monitor_jobs jt (oracle 0) events lst L with
      | fatal msg a =>
          rw [hm] at h2
          simp only [Res.state]
          simp only [List.mem_append]
          rintro (h | h)
          · exact hq h
          · exact h2 h
      | ok a =>
          rw [hm] at h1 h2
          refine ih (fun k => oracle (k + 1)) a.listener a.ledger
            (qs ++ a.queried) h1 ?_
          simp only [List.mem_append]
          rintro (h | h)
          · exact hq h
          · exact h2 h

/-- C8: an event whose ledger record is already `retrieved` is cached in
`events_already_retrieved` by the round that sees it, is excluded from
the polled set of any round whose cache contains it, and is never the
subject of a `get_job_status` call — in the observed round and in every
sequence of rounds of the same listener. -/
theorem claim_C8_retrieved_never_repolled (jt : JobType)
    (oracle : Nat → String → JobStatus) (events : List String)
    (lst : Listener) (L : Ledger) (e : String)
    (hret : (L jt e).retrieved = true) :
    (e ∈ lst.alreadyRetrieved → e ∉ events_left events lst.alreadyRetrieved)
    ∧ e ∉ (monitor_jobs jt (oracle 0) events lst L).state.queried
    ∧ (∀ a2, monitor_jobs jt (oracle 0) events lst L = .ok a2 → e ∈ events →
        e ∈ a2.listener.alreadyRetrieved
        ∧ e ∉ events_left events a2.listener.alreadyRetrieved)
    ∧ (∀ n, e ∉ (monitor_rounds jt oracle events n lst L []).state.2.2) := by
  obtain ⟨h1, h2, h3⟩ :=
    monitor_jobs_retrieved_cached jt (oracle 0) events lst L e hret
  refine ⟨fun h => events_left_excludes events lst.alreadyRetrieved e h, h2,
    ?_, ?_⟩
  · intro a2 hok hmem
    have hcache := h3 a2 hok hmem
    exact ⟨hcache, events_left_excludes events a2.listener.alreadyRetrieved e hcache⟩
  · intro n
    exact monitor_rounds_no_query jt events e n oracle lst L [] hret (by simp)

/-- Witness for C8: with `E1` retrieved and `E2` merely submitted, three
rounds of an all-pending oracle never query `E1`. -/
theorem claim_C8_retrieved_never_repolled_witness :
    "E1" ∉ (monitor_jobs .forward (fun _ => .pending) ["E1", "E2"]
        Listener.init (retrievedLedger)).state.queried
    ∧ "E1" ∉ (monitor_rounds .forward (fun _ _ => .pending) ["E1", "E2"] 3
        Listener.init retrievedLedger []).state.2.2 :=
  ⟨(claim_C8_retrieved_never_repolled .forward (fun _ _ => .pending)
      ["E1", "E2"] Listener.init retrievedLedger "E1" rfl).2.1,
   (claim_C8_retrieved_never_repolled .forward (fun _ _ => .pending)
      ["E1", "E2"] Listener.init retrievedLedger "E1" rfl).2.2.2 3⟩

end Inversionson

namespace Inversionson

/-! ### Soundness of one monitoring step for the ledger invariant -/

theorem monitor_step_sound (jt : JobType) (statusOf : String → JobStatus)
    (a : MonAcc) (e : String)
    (hinv : LedgerInv a.ledger)
    (hnow : ∀ x ∈ a.listener.retrievedNow, (a.ledger jt x).submitted = true)
    (hrep : ∀ x ∈ a.listener.toRepost, (a.ledger jt x).retrieved = false)
    (hdisj : ∀ x ∈ a.listener.retrievedNow, x ∉ a.listener.toRepost)
    (hniln : e ∉ a.listener.retrievedNow) (hnilr : e ∉ a.listener.toRepost) :
    LedgerInv ((monitor_step jt statusOf a e).state.ledger)
    ∧ (∀ x ∈ (monitor_step jt statusOf a e).state.listener.retrievedNow,
        ((monitor_step jt statusOf a e).state.ledger jt x).submitted = true)
    ∧ (∀ x ∈ (monitor_step jt statusOf a e).state.listener.toRepost,
        ((monitor_step jt statusOf a e).state.ledger jt x).retrieved = false)
    ∧ (∀ x ∈ (monitor_step jt statusOf a e).state.listener.retrievedNow,
        x ∉ (monitor_step jt statusOf a e).state.listener.toRepost) := by
  by_cases hr : (a.ledger jt e).retrieved = true
  · rw [monitor_step_retrieved_case jt statusOf a e hr]
    exact ⟨hinv, hnow, hrep, hdisj⟩
  · have hr2 : (a.ledger jt e).retrieved = false := by simpa using hr
    by_cases hsub : (a.ledger jt e).submitted = true
    · cases hst : statusOf e with
      | pending =>
          rw [monitor_step_pending_case jt statusOf a e hr2 hsub hst]
          exact ⟨hinv, hnow, hrep, hdisj⟩
      | running =>
          rw [monitor_step_running_case jt statusOf a e hr2 hsub hst]
          exact ⟨hinv, hnow, hrep, hdisj⟩
      | cancelled =>
          rw [monitor_step_cancelled_case jt statusOf a e hr2 hsub hst]
          exact ⟨hinv, hnow, hrep, hdisj⟩
      | other s =>
          rw [monitor_step_other_case jt statusOf a e s hr2 hsub hst]
          exact ⟨hinv, hnow, hrep, hdisj⟩
      | finished =>
          by_cases hjt : jt = .gradient_interp
          · subst hjt
            rw [monitor_step_finished_gradient_case statusOf a e hr2 hsub hst]
            dsimp only [Res.state]
            refine ⟨hinv.setRetrievedTrue _ e hsub, ?_, ?_, ?_⟩
            · intro x hx
              rw [Ledger.setRetrieved_submitted]
              simp only [List.mem_append, List.mem_singleton] at hx
              rcases hx with hx | hx
              · exact hnow x hx
              · subst hx; exact hsub
            · intro x hx
              have hxe : x ≠ e := fun h => hnilr (h ▸ hx)
              unfold Ledger.setRetrieved
              rw [Ledger.set_other _ _ _ _ _ _ (fun h => hxe h.2)]
              exact hrep x hx
            · intro x hx
              simp only [List.mem_append, List.mem_singleton] at hx
              rcases hx with hx | hx
              · exact hdisj x hx
              · subst hx; exact hnilr
          · rw [monitor_step_finished_case jt statusOf a e hr2 hsub hst hjt]
            dsimp only [Res.state]
            refine ⟨hinv, ?_, hrep, ?_⟩
            · intro x hx
              simp only [List.mem_append, List.mem_singleton] at hx
              rcases hx with hx | hx
              · exact hnow x hx
              · subst hx; exact hsub
            · intro x hx
              simp only [List.mem_append, List.mem_singleton] at hx
              rcases hx with hx | hx
              · exact hdisj x hx
              · subst hx; exact hnilr
      | failed =>
          by_cases hb : (a.ledger jt e).reposts < max_reposts
          · rw [monitor_step_repost_case jt statusOf a e hr2 hsub (Or.inl hst) hb]
            dsimp only [Res.state]
            refine ⟨hinv.setReposts jt e _, ?_, ?_, ?_⟩
            · intro x hx
              rw [Ledger.setReposts_submitted]
              exact hnow x hx
            · intro x hx
              rw [Ledger.setReposts_retrieved]
              simp only [List.mem_append, List.mem_singleton] at hx
              rcases hx with hx | hx
              · exact hrep x hx
              · subst hx; exact hr2
            · intro x hx
              simp only [List.mem_append, List.mem_singleton]
              rintro (h | h)
              · exact hdisj x hx h
              · subst h; exact hniln hx
          · rw [monitor_step_fatal_case jt statusOf a e hr2 hsub (Or.inl hst)
              (Nat.le_of_not_lt hb)]
            exact ⟨hinv, hnow, hrep, hdisj⟩
      | unknown =>
          by_cases hb : (a.ledger jt e).reposts < max_reposts
          · rw [monitor_step_repost_case jt statusOf a e hr2 hsub (Or.inr hst) hb]
            dsimp only [Res.state]
            refine ⟨hinv.setReposts jt e _, ?_, ?_, ?_⟩
            · intro x hx
              rw [Ledger.setReposts_submitted]
              exact hnow x hx
            · intro x hx
              rw [Ledger.setReposts_retrieved]
              simp only [List.mem_append, List.mem_singleton] at hx
              rcases hx with hx | hx
              · exact hrep x hx
              · subst hx; exact hr2
            · intro x hx
              simp only [List.mem_append, List.mem_singleton]
              rintro (h | h)
              · exact hdisj x hx h
              · subst h; exact hniln hx
          · rw [monitor_step_fatal_case jt statusOf a e hr2 hsub (Or.inr hst)
              (Nat.le_of_not_lt hb)]
            exact ⟨hinv, hnow, hrep, hdisj⟩
    · have hsub2 : (a.ledger jt e).submitted = false := by simpa using hsub
      rw [monitor_step_unsubmitted_case jt statusOf a e hr2 hsub2]
      exact ⟨hinv, hnow, hrep, hdisj⟩

end Inversionson

namespace Inversionson

theorem monitor_fold_sound (jt : JobType) (statusOf : String → JobStatus) :
    ∀ (l : List String) (a : MonAcc), l.Nodup →
      (∀ x ∈ l, x ∉ a.listener.retrievedNow ∧ x ∉ a.listener.toRepost) →
      LedgerInv a.ledger →
      (∀ x ∈ a.listener.retrievedNow, (a.ledger jt x).submitted = true) →
      (∀ x ∈ a.listener.toRepost, (a.ledger jt x).retrieved = false) →
      (∀ x ∈ a.listener.retrievedNow, x ∉ a.listener.toRepost) →
      LedgerInv ((monitor_fold jt statusOf a l).state.ledger)
      ∧ (∀ x ∈ (monitor_fold jt statusOf a l).state.listener.retrievedNow,
          ((monitor_fold jt statusOf a l).state.ledger jt x).submitted = true)
      ∧ (∀ x ∈ (monitor_fold jt statusOf a l).state.listener.toRepost,
          ((monitor_fold jt statusOf a l).state.ledger jt x).retrieved = false)
      ∧ (∀ x ∈ (monitor_fold jt statusOf a l).state.listener.retrievedNow,
          x ∉ (monitor_fold jt statusOf a l).state.listener.toRepost) := by
  intro l
  induction l with
  | nil =>
      intro a _ _ hinv hnow hrep hdisj
      exact ⟨hinv, hnow, hrep, hdisj⟩
  | cons e rest ih =>
      intro a hnd hl hinv hnow hrep hdisj
      have hsound := monitor_step_sound jt statusOf a e hinv hnow hrep hdisj
        (hl e (List.mem_cons_self e rest)).1 (hl e (List.mem_cons_self e rest)).2
      have hframe := monitor_step_frame jt statusOf a e
      have hndr : rest.Nodup := hnd.of_cons
      have hein : e ∉ rest := by
        have := List.nodup_cons.mp hnd
        exact this.1
      cases hs : monitor_step jt statusOf a e with
      | fatal msg a2 =>
          have hfold : monitor_fold jt statusOf a (e :: rest) = .fatal msg a2 := by
            conv_lhs => unfold monitor_fold
            rw [hs]
          rw [hfold]
          rw [hs] at hsound
          exact hsound
      | ok a2 =>
          have hfold : monitor_fold jt statusOf a (e :: rest) =
              monitor_fold jt statusOf a2 rest := by
            conv_lhs => unfold monitor_fold
            rw [hs]
          rw [hs] at hsound hframe
          dsimp only [Res.state] at hsound hframe
          rw [hfold]
          refine ih a2 hndr ?_ hsound.1 hsound.2.1 hsound.2.2.1 hsound.2.2.2
          intro x hx
          have hxe : x ≠ e := fun h => hein (h ▸ hx)
          constructor
          · rcases hframe.2.2.1 with h | h <;> rw [h]
            · exact (hl x (List.mem_cons_of_mem e hx)).1
            · simp only [List.mem_append, List.mem_singleton]
              rintro (h2 | h2)
              · exact (hl x (List.mem_cons_of_mem e hx)).1 h2
              · exact hxe h2
          · rcases hframe.2.2.2.1 with h | h <;> rw [h]
            · exact (hl x (List.mem_cons_of_mem e hx)).2
            · simp only [List.mem_append, List.mem_singleton]
              rintro (h2 | h2)
              · exact (hl x (List.mem_cons_of_mem e hx)).2 h2
              · exact hxe h2

/-- Round-level soundness of `__monitor_jobs`: starting from a listener
whose per-round lists are empty and a ledger satisfying the invariant,
the round preserves the invariant, every event of `events_retrieved_now`
has a submitted record, every event of `to_repost` has an unretrieved
record, and the two lists are disjoint. -/
theorem monitor_jobs_sound (jt : JobType) (statusOf : String → JobStatus)
    (events : List String) (lst : Listener) (L : Ledger)
    (hn : lst.retrievedNow = []) (ht : lst.toRepost = [])
    (hinv : LedgerInv L) :
    LedgerInv ((monitor_jobs jt statusOf events lst L).state.ledger)
    ∧ (∀ x ∈ (monitor_jobs jt statusOf events lst L).state.listener.retrievedNow,
        ((monitor_jobs jt statusOf events lst L).state.ledger jt x).submitted = true)
    ∧ (∀ x ∈ (monitor_jobs jt statusOf events lst L).state.listener.toRepost,
        ((monitor_jobs jt statusOf events lst L).state.ledger jt x).retrieved = false)
    ∧ (∀ x ∈ (monitor_jobs jt statusOf events lst L).state.listener.retrievedNow,
        x ∉ (monitor_jobs jt statusOf events lst L).state.listener.toRepost) := by
  unfold monitor_jobs
  refine monitor_fold_sound jt statusOf (events_left events lst.alreadyRetrieved)
    _ ?_ ?_ hinv ?_ ?_ ?_
  · exact List.nodup_dedup _
  · intro x _
    simp only [hn, ht]
    exact ⟨by simp, by simp⟩
  · intro x hx
    rw [hn] at hx
    cases hx
  · intro x hx
    rw [ht] at hx
    cases hx
  · intro x hx
    rw [hn] at hx
    cases hx

/-- `foldl` preserves a predicate that every step preserves. -/
theorem foldl_preserves {α β : Type} (P : α → Prop) (f : α → β → α) :
    ∀ (l : List β) (a : α), P a → (∀ x a2, x ∈ l → P a2 → P (f a2 x)) →
      P (l.foldl f a) := by
  intro l
  induction l with
  | nil => intro a ha _; exact ha
  | cons x rest ih =>
      intro a ha hstep
      exact ih (f a x) (hstep x a (List.mem_cons_self x rest) ha)
        (fun y a2 hy => hstep y a2 (List.mem_cons_of_mem x hy))

end Inversionson

namespace Inversionson

/-! ### Ledger effects of the submission primitives -/

theorem Ledger.setSubmitted_other (L : Ledger) (jt : JobType) (e : String)
    (b : Bool) (jt2 : JobType) (e2 : String) (h : ¬ (jt2 = jt ∧ e2 = e)) :
    (L.setSubmitted jt e b) jt2 e2 = L jt2 e2 := by
  unfold Ledger.setSubmitted
  exact Ledger.set_other L jt e _ jt2 e2 h

theorem run_forward_simulation_inv {o : OState} (h : LedgerInv o.ledger)
    (e : String) : LedgerInv (run_forward_simulation o e).ledger := by
  unfold run_forward_simulation
  split
  · exact h
  · exact h.setSubmittedTrue .forward e

theorem launch_hpc_processing_job_inv {o : OState} (h : LedgerInv o.ledger)
    (e : String) : LedgerInv (launch_hpc_processing_job o e).ledger := by
  unfold launch_hpc_processing_job
  split
  · exact h
  · exact h.setSubmittedTrue .hpc_processing e

theorem dispatch_adjoint_simulation_inv {o : OState} (h : LedgerInv o.ledger)
    (e : String) : LedgerInv (dispatch_adjoint_simulation o e).ledger := by
  unfold dispatch_adjoint_simulation
  split
  · exact h
  · exact h.setSubmittedTrue .adjoint e

theorem interpolate_model_remote_inv {o : OState} (h : LedgerInv o.ledger)
    (e : String) : LedgerInv (interpolate_model_remote o e).ledger := by
  unfold interpolate_model_remote
  split
  · exact h
  · split
    · exact h
    · split
      · exact h
      · exact h.setSubmittedTrue .model_interp e

theorem run_forward_simulation_ledger_retrieved (o : OState) (e : String)
    (jt2 : JobType) (e2 : String) :
    ((run_forward_simulation o e).ledger jt2 e2).retrieved
      = (o.ledger jt2 e2).retrieved := by
  unfold run_forward_simulation
  split
  · rfl
  · exact Ledger.setSubmitted_retrieved o.ledger .forward e true jt2 e2

theorem launch_hpc_processing_job_ledger_other (o : OState) (e : String)
    (jt2 : JobType) (e2 : String) (h : jt2 ≠ .hpc_processing) :
    (launch_hpc_processing_job o e).ledger jt2 e2 = o.ledger jt2 e2 := by
  unfold launch_hpc_processing_job
  split
  · rfl
  · exact Ledger.setSubmitted_other o.ledger .hpc_processing e true jt2 e2
      (fun h2 => h h2.1)

theorem dispatch_adjoint_simulation_ledger_other (o : OState) (e : String)
    (jt2 : JobType) (e2 : String) (h : jt2 ≠ .adjoint) :
    (dispatch_adjoint_simulation o e).ledger jt2 e2 = o.ledger jt2 e2 := by
  unfold dispatch_adjoint_simulation
  split
  · rfl
  · exact Ledger.setSubmitted_other o.ledger .adjoint e true jt2 e2
      (fun h2 => h h2.1)

theorem run_forward_simulation_ledger_other (o : OState) (e : String)
    (jt2 : JobType) (e2 : String) (h : jt2 ≠ .forward) :
    (run_forward_simulation o e).ledger jt2 e2 = o.ledger jt2 e2 := by
  unfold run_forward_simulation
  split
  · rfl
  · exact Ledger.setSubmitted_other o.ledger .forward e true jt2 e2
      (fun h2 => h h2.1)

end Inversionson

namespace Inversionson

/-! ### Invariant preservation through the forward-retrieval round -/

theorem rf_process_already_sound (cfg : Config) (forL : Listener) (o : OState)
    (hinv : LedgerInv o.ledger)
    (hnow : ∀ x ∈ forL.retrievedNow, (o.ledger .forward x).submitted = true)
    (hrep : ∀ x ∈ forL.toRepost, (o.ledger .forward x).retrieved = false) :
    LedgerInv (rf_process_already cfg forL o).ledger
    ∧ (∀ x ∈ forL.retrievedNow,
        ((rf_process_already cfg forL o).ledger .forward x).submitted = true)
    ∧ (∀ x ∈ forL.toRepost,
        ((rf_process_already cfg forL o).ledger .forward x).retrieved = false) := by
  unfold rf_process_already
  split
  · refine foldl_preserves
      (fun o2 : OState => LedgerInv o2.ledger
        ∧ (∀ x ∈ forL.retrievedNow, (o2.ledger .forward x).submitted = true)
        ∧ (∀ x ∈ forL.toRepost, (o2.ledger .forward x).retrieved = false))
      launch_hpc_processing_job forL.alreadyRetrieved o ⟨hinv, hnow, hrep⟩ ?_
    intro x o2 _ ⟨h1, h2, h3⟩
    refine ⟨launch_hpc_processing_job_inv h1 x, ?_, ?_⟩
    · intro y hy
      rw [launch_hpc_processing_job_ledger_other o2 x .forward y (by simp)]
      exact h2 y hy
    · intro y hy
      rw [launch_hpc_processing_job_ledger_other o2 x .forward y (by simp)]
      exact h3 y hy
  · exact ⟨hinv, hnow, hrep⟩

theorem rf_retrieved_step_sound (cfg : Config) (nowL repostL : List String)
    (o2 : OState) (x : String) (hx : x ∈ nowL)
    (hxrep : x ∉ repostL)
    (h1 : LedgerInv o2.ledger)
    (h2 : ∀ y ∈ nowL, (o2.ledger .forward y).submitted = true)
    (h3 : ∀ y ∈ repostL, (o2.ledger .forward y).retrieved = false) :
    LedgerInv (rf_retrieved_step cfg o2 x).ledger
    ∧ (∀ y ∈ nowL, ((rf_retrieved_step cfg o2 x).ledger .forward y).submitted = true)
    ∧ (∀ y ∈ repostL,
        ((rf_retrieved_step cfg o2 x).ledger .forward y).retrieved = false) := by
  unfold rf_retrieved_step
  have step1 : LedgerInv (if cfg.hpcProcessing ∧ ¬ cfg.validation then
        launch_hpc_processing_job o2 x else o2).ledger
      ∧ (∀ y ∈ nowL, ((if cfg.hpcProcessing ∧ ¬ cfg.validation then
          launch_hpc_processing_job o2 x else o2).ledger .forward y).submitted = true)
      ∧ (∀ y ∈ repostL, ((if cfg.hpcProcessing ∧ ¬ cfg.validation then
          launch_hpc_processing_job o2 x else o2).ledger .forward y).retrieved
            = false) := by
    split
    · refine ⟨launch_hpc_processing_job_inv h1 x, ?_, ?_⟩
      · intro y hy
        rw [launch_hpc_processing_job_ledger_other o2 x .forward y (by simp)]
        exact h2 y hy
      · intro y hy
        rw [launch_hpc_processing_job_ledger_other o2 x .forward y (by simp)]
        exact h3 y hy
    · exact ⟨h1, h2, h3⟩
  set o3 : OState := if cfg.hpcProcessing ∧ ¬ cfg.validation then
    launch_hpc_processing_job o2 x else o2 with ho3
  obtain ⟨g1, g2, g3⟩ := step1
  have step2 : LedgerInv (o3.ledger.setRetrieved .forward x true)
      ∧ (∀ y ∈ nowL,
          ((o3.ledger.setRetrieved .forward x true) .forward y).submitted = true)
      ∧ (∀ y ∈ repostL,
          ((o3.ledger.setRetrieved .forward x true) .forward y).retrieved
            = false) := by
    refine ⟨g1.setRetrievedTrue .forward x (g2 x hx), ?_, ?_⟩
    · intro y hy
      rw [Ledger.setRetrieved_submitted]
      exact g2 y hy
    · intro y hy
      have hyx : y ≠ x := fun h => hxrep (h ▸ hy)
      unfold Ledger.setRetrieved
      rw [Ledger.set_other _ _ _ _ _ _ (fun h => hyx h.2)]
      exact g3 y hy
  obtain ⟨k1, k2, k3⟩ := step2
  split
  · refine ⟨dispatch_adjoint_simulation_inv k1 x, ?_, ?_⟩
    · intro y hy
      rw [dispatch_adjoint_simulation_ledger_other _ x .forward y (by simp)]
      exact k2 y hy
    · intro y hy
      rw [dispatch_adjoint_simulation_ledger_other _ x .forward y (by simp)]
      exact k3 y hy
  · exact ⟨k1, k2, k3⟩

theorem rf_repost_step_sound (repostL : List String) (o2 : OState) (x : String)
    (hx : x ∈ repostL)
    (h1 : LedgerInv o2.ledger)
    (h3 : ∀ y ∈ repostL, (o2.ledger .forward y).retrieved = false) :
    LedgerInv (rf_repost_step o2 x).ledger
    ∧ (∀ y ∈ repostL,
        ((rf_repost_step o2 x).ledger .forward y).retrieved = false) := by
  unfold rf_repost_step
  have hmid : LedgerInv (o2.ledger.setSubmitted .forward x false) :=
    h1.setSubmittedFalse .forward x (h3 x hx)
  constructor
  · exact run_forward_simulation_inv hmid x
  · intro y hy
    rw [run_forward_simulation_ledger_retrieved]
    dsimp only
    rw [Ledger.setSubmitted_retrieved]
    exact h3 y hy

end Inversionson

namespace Inversionson

theorem launch_hpc_processing_job_ledger_retrieved (o : OState) (e : String)
    (jt2 : JobType) (e2 : String) :
    ((launch_hpc_processing_job o e).ledger jt2 e2).retrieved
      = (o.ledger jt2 e2).retrieved := by
  unfold launch_hpc_processing_job
  split
  · rfl
  · exact Ledger.setSubmitted_retrieved o.ledger .hpc_processing e true jt2 e2

theorem interpolate_model_remote_ledger_retrieved (o : OState) (e : String)
    (jt2 : JobType) (e2 : String) :
    ((interpolate_model_remote o e).ledger jt2 e2).retrieved
      = (o.ledger jt2 e2).retrieved := by
  unfold interpolate_model_remote
  split
  · rfl
  · split
    · rfl
    · split
      · rfl
      · exact Ledger.setSubmitted_retrieved o.ledger .model_interp e true jt2 e2

theorem rf_hpc_retrieved_step_sound (cfg : Config) (nowL repostL : List String)
    (o3 : OState) (x : String) (hx : x ∈ nowL) (hxrep : x ∉ repostL)
    (h1 : LedgerInv o3.ledger)
    (h2 : ∀ y ∈ nowL, (o3.ledger .hpc_processing y).submitted = true)
    (h3 : ∀ y ∈ repostL, (o3.ledger .hpc_processing y).retrieved = false) :
    LedgerInv (rf_hpc_retrieved_step cfg o3 x).ledger
    ∧ (∀ y ∈ nowL,
        ((rf_hpc_retrieved_step cfg o3 x).ledger .hpc_processing y).submitted = true)
    ∧ (∀ y ∈ repostL,
        ((rf_hpc_retrieved_step cfg o3 x).ledger .hpc_processing y).retrieved
          = false) := by
  unfold rf_hpc_retrieved_step
  have k1 : LedgerInv (o3.ledger.setRetrieved .hpc_processing x true) :=
    h1.setRetrievedTrue .hpc_processing x (h2 x hx)
  have k2 : ∀ y ∈ nowL,
      ((o3.ledger.setRetrieved .hpc_processing x true) .hpc_processing y).submitted
        = true := by
    intro y hy
    rw [Ledger.setRetrieved_submitted]
    exact h2 y hy
  have k3 : ∀ y ∈ repostL,
      ((o3.ledger.setRetrieved .hpc_processing x true) .hpc_processing y).retrieved
        = false := by
    intro y hy
    have hyx : y ≠ x := fun h => hxrep (h ▸ hy)
    unfold Ledger.setRetrieved
    rw [Ledger.set_other _ _ _ _ _ _ (fun h => hyx h.2)]
    exact h3 y hy
  split
  · refine ⟨dispatch_adjoint_simulation_inv k1 x, ?_, ?_⟩
    · intro y hy
      rw [dispatch_adjoint_simulation_ledger_other _ x .hpc_processing y (by simp)]
      exact k2 y hy
    · intro y hy
      rw [dispatch_adjoint_simulation_ledger_other _ x .hpc_processing y (by simp)]
      exact k3 y hy
  · exact ⟨k1, k2, k3⟩

theorem rf_hpc_repost_step_sound (repostL : List String) (o3 : OState)
    (x : String) (hx : x ∈ repostL)
    (h1 : LedgerInv o3.ledger)
    (h3 : ∀ y ∈ repostL, (o3.ledger .hpc_processing y).retrieved = false) :
    LedgerInv (rf_hpc_repost_step o3 x).ledger
    ∧ (∀ y ∈ repostL,
        ((rf_hpc_repost_step o3 x).ledger .hpc_processing y).retrieved = false) := by
  unfold rf_hpc_repost_step
  have hmid : LedgerInv (o3.ledger.setSubmitted .hpc_processing x false) :=
    h1.setSubmittedFalse .hpc_processing x (h3 x hx)
  constructor
  · exact launch_hpc_processing_job_inv hmid x
  · intro y hy
    rw [launch_hpc_processing_job_ledger_retrieved]
    dsimp only
    rw [Ledger.setSubmitted_retrieved]
    exact h3 y hy

theorem rf_hpc_block_inv (cfg : Config) (hpcStatusOf : String → JobStatus)
    (events : List String) (hpcL : Listener) (o : OState)
    (hn : hpcL.retrievedNow = []) (ht : hpcL.toRepost = [])
    (hinv : LedgerInv o.ledger) :
    LedgerInv ((rf_hpc_block cfg hpcStatusOf events hpcL o).state.2.1.ledger) := by
  unfold rf_hpc_block
  split
  · have hsound := monitor_jobs_sound .hpc_processing hpcStatusOf events hpcL
      o.ledger hn ht hinv
    cases hm : monitor_jobs .hpc_processing hpcStatusOf events hpcL o.ledger with
    | fatal msg b =>
        rw [hm] at hsound
        dsimp only [Res.state] at hsound ⊢
        exact hsound.1
    | ok b =>
        rw [hm] at hsound
        dsimp only [Res.state] at hsound ⊢
        obtain ⟨b1, b2, b3, b4⟩ := hsound
        have hfoldD := foldl_preserves
          (fun o3 : OState => LedgerInv o3.ledger
            ∧ (∀ y ∈ b.listener.retrievedNow,
                (o3.ledger .hpc_processing y).submitted = true)
            ∧ (∀ y ∈ b.listener.toRepost,
                (o3.ledger .hpc_processing y).retrieved = false))
          (rf_hpc_retrieved_step cfg) b.listener.retrievedNow
          { o with ledger := b.ledger } ⟨b1, b2, b3⟩
          (fun x o3 hxmem ⟨p1, p2, p3⟩ =>
            rf_hpc_retrieved_step_sound cfg b.listener.retrievedNow
              b.listener.toRepost o3 x hxmem (b4 x hxmem) p1 p2 p3)
        have hfoldE := foldl_preserves
          (fun o3 : OState => LedgerInv o3.ledger
            ∧ (∀ y ∈ b.listener.toRepost,
                (o3.ledger .hpc_processing y).retrieved = false))
          rf_hpc_repost_step b.listener.toRepost
          (b.listener.retrievedNow.foldl (rf_hpc_retrieved_step cfg)
            { o with ledger := b.ledger })
          ⟨hfoldD.1, hfoldD.2.2⟩
          (fun x o3 hxmem ⟨p1, p3⟩ =>
            rf_hpc_repost_step_sound b.listener.toRepost o3 x hxmem p1 p3)
        by_cases hlen : b.listener.retrievedNow.length
            + b.listener.alreadyRetrieved.length = events.length
        · rw [if_pos hlen]
          exact hfoldE.1
        · rw [if_neg hlen]
          exact hfoldE.1
  · exact hinv

end Inversionson

namespace Inversionson

theorem rf_finish_inv (cfg : Config) (hpcStatusOf : String → JobStatus)
    (events : List String) (s : RFState) (forL : Listener) (o : OState)
    (hn2 : s.hpcL.retrievedNow = []) (ht2 : s.hpcL.toRepost = [])
    (hinv : LedgerInv o.ledger) :
    LedgerInv ((rf_finish cfg hpcStatusOf events s forL o).state.o.ledger) := by
  unfold rf_finish
  split
  · exact hinv
  · split
    · exact hinv
    · have hblock := rf_hpc_block_inv cfg hpcStatusOf events s.hpcL o hn2 ht2 hinv
      cases hb : rf_hpc_block cfg hpcStatusOf events s.hpcL o with
      | fatal msg p =>
          obtain ⟨pl, po, pb⟩ := p
          rw [hb] at hblock
          exact hblock
      | ok p =>
          obtain ⟨pl, po, pb⟩ := p
          rw [hb] at hblock
          cases pb
          · exact hblock
          · exact hblock

theorem retrieve_forward_round_inv (cfg : Config)
    (statusOf hpcStatusOf : String → JobStatus) (events : List String)
    (s : RFState)
    (hn : s.forL.retrievedNow = []) (ht : s.forL.toRepost = [])
    (hn2 : s.hpcL.retrievedNow = []) (ht2 : s.hpcL.toRepost = [])
    (hinv : LedgerInv s.o.ledger) :
    LedgerInv
      ((retrieve_forward_round cfg statusOf hpcStatusOf events s).state.o.ledger) := by
  have hsound := monitor_jobs_sound .forward statusOf events s.forL s.o.ledger
    hn ht hinv
  unfold retrieve_forward_round
  cases hm : monitor_jobs .forward statusOf events s.forL s.o.ledger with
  | fatal msg a =>
      rw [hm] at hsound
      dsimp only [Res.state] at hsound
      exact hsound.1
  | ok a =>
      rw [hm] at hsound
      dsimp only [Res.state] at hsound
      obtain ⟨a1, a2, a3, a4⟩ := hsound
      obtain ⟨A1, A2, A3⟩ := rf_process_already_sound cfg a.listener
        { s.o with ledger := a.ledger } a1 a2 a3
      have hB := foldl_preserves
        (fun o2 : OState => LedgerInv o2.ledger
          ∧ (∀ y ∈ a.listener.retrievedNow,
              (o2.ledger .forward y).submitted = true)
          ∧ (∀ y ∈ a.listener.toRepost,
              (o2.ledger .forward y).retrieved = false))
        (rf_retrieved_step cfg) a.listener.retrievedNow
        (rf_process_already cfg a.listener { s.o with ledger := a.ledger })
        ⟨A1, A2, A3⟩
        (fun x o2 hxmem ⟨p1, p2, p3⟩ =>
          rf_retrieved_step_sound cfg a.listener.retrievedNow
            a.listener.toRepost o2 x hxmem (a4 x hxmem) p1 p2 p3)
      have hC := foldl_preserves
        (fun o2 : OState => LedgerInv o2.ledger
          ∧ (∀ y ∈ a.listener.toRepost,
              (o2.ledger .forward y).retrieved = false))
        rf_repost_step a.listener.toRepost
        (a.listener.retrievedNow.foldl (rf_retrieved_step cfg)
          (rf_process_already cfg a.listener { s.o with ledger := a.ledger }))
        ⟨hB.1, hB.2.2⟩
        (fun x o2 hxmem ⟨p1, p3⟩ =>
          rf_repost_step_sound a.listener.toRepost o2 x hxmem p1 p3)
      exact rf_finish_inv cfg hpcStatusOf events s a.listener _ hn2 ht2 hC.1

theorem interp_retrieved_step_sound (nowL repostL : List String)
    (o2 : OState) (x : String) (hx : x ∈ nowL) (hxrep : x ∉ repostL)
    (h1 : LedgerInv o2.ledger)
    (h2 : ∀ y ∈ nowL, (o2.ledger .model_interp y).submitted = true)
    (h3 : ∀ y ∈ repostL, (o2.ledger .model_interp y).retrieved = false) :
    LedgerInv (interp_retrieved_step o2 x).ledger
    ∧ (∀ y ∈ nowL,
        ((interp_retrieved_step o2 x).ledger .model_interp y).submitted = true)
    ∧ (∀ y ∈ repostL,
        ((interp_retrieved_step o2 x).ledger .model_interp y).retrieved = false) := by
  unfold interp_retrieved_step
  have g1 : LedgerInv (run_forward_simulation o2 x).ledger :=
    run_forward_simulation_inv h1 x
  have g2 : ∀ y ∈ nowL,
      ((run_forward_simulation o2 x).ledger .model_interp y).submitted = true := by
    intro y hy
    rw [run_forward_simulation_ledger_other o2 x .model_interp y (by simp)]
    exact h2 y hy
  have g3 : ∀ y ∈ repostL,
      ((run_forward_simulation o2 x).ledger .model_interp y).retrieved = false := by
    intro y hy
    rw [run_forward_simulation_ledger_other o2 x .model_interp y (by simp)]
    exact h3 y hy
  dsimp only
  refine ⟨g1.setRetrievedTrue .model_interp x (g2 x hx), ?_, ?_⟩
  · intro y hy
    rw [Ledger.setRetrieved_submitted]
    exact g2 y hy
  · intro y hy
    have hyx : y ≠ x := fun h => hxrep (h ▸ hy)
    unfold Ledger.setRetrieved
    rw [Ledger.set_other _ _ _ _ _ _ (fun h => hyx h.2)]
    exact g3 y hy

theorem interp_repost_step_sound (repostL : List String) (o2 : OState)
    (x : String) (hx : x ∈ repostL)
    (h1 : LedgerInv o2.ledger)
    (h3 : ∀ y ∈ repostL, (o2.ledger .model_interp y).retrieved = false) :
    LedgerInv (interp_repost_step o2 x).ledger
    ∧ (∀ y ∈ repostL,
        ((interp_repost_step o2 x).ledger .model_interp y).retrieved = false) := by
  unfold interp_repost_step
  have hmid : LedgerInv (o2.ledger.setSubmitted .model_interp x false) :=
    h1.setSubmittedFalse .model_interp x (h3 x hx)
  constructor
  · exact interpolate_model_remote_inv hmid x
  · intro y hy
    rw [interpolate_model_remote_ledger_retrieved]
    dsimp only
    rw [Ledger.setSubmitted_retrieved]
    exact h3 y hy

theorem interp_finish_inv (events : List String) (lst : Listener) (o : OState)
    (hinv : LedgerInv o.ledger) :
    LedgerInv ((interp_finish events lst o).state.o.ledger) := by
  unfold interp_finish
  split
  · exact hinv
  · exact hinv

theorem dispatch_interp_round_inv (statusOf : String → JobStatus)
    (events : List String) (s : IState)
    (hn : s.lst.retrievedNow = []) (ht : s.lst.toRepost = [])
    (hinv : LedgerInv s.o.ledger) :
    LedgerInv ((dispatch_interp_round statusOf events s).state.o.ledger) := by
  have hsound := monitor_jobs_sound .model_interp statusOf events s.lst
    s.o.ledger hn ht hinv
  unfold dispatch_interp_round
  cases hm : monitor_jobs .model_interp statusOf events s.lst s.o.ledger with
  | fatal msg a =>
      rw [hm] at hsound
      dsimp only [Res.state] at hsound
      exact hsound.1
  | ok a =>
      rw [hm] at hsound
      dsimp only [Res.state] at hsound
      obtain ⟨a1, a2, a3, a4⟩ := hsound
      have hB := foldl_preserves
        (fun o2 : OState => LedgerInv o2.ledger
          ∧ (∀ y ∈ a.listener.retrievedNow,
              (o2.ledger .model_interp y).submitted = true)
          ∧ (∀ y ∈ a.listener.toRepost,
              (o2.ledger .model_interp y).retrieved = false))
        interp_retrieved_step a.listener.retrievedNow
        { s.o with ledger := a.ledger } ⟨a1, a2, a3⟩
        (fun x o2 hxmem ⟨p1, p2, p3⟩ =>
          interp_retrieved_step_sound a.listener.retrievedNow
            a.listener.toRepost o2 x hxmem (a4 x hxmem) p1 p2 p3)
      have hC := foldl_preserves
        (fun o2 : OState => LedgerInv o2.ledger
          ∧ (∀ y ∈ a.listener.toRepost,
              (o2.ledger .model_interp y).retrieved = false))
        interp_repost_step a.listener.toRepost
        (a.listener.retrievedNow.foldl interp_retrieved_step
          { s.o with ledger := a.ledger })
        ⟨hB.1, hB.2.2⟩
        (fun x o2 hxmem ⟨p1, p3⟩ =>
          interp_repost_step_sound a.listener.toRepost o2 x hxmem p1 p3)
      exact interp_finish_inv events a.listener _ hC.1

end Inversionson

namespace Inversionson

theorem monitor_step_inv (jt : JobType) (statusOf : String → JobStatus)
    (a : MonAcc) (e : String) (hinv : LedgerInv a.ledger) :
    LedgerInv ((monitor_step jt statusOf a e).state.ledger) := by
  by_cases hr : (a.ledger jt e).retrieved = true
  · rw [monitor_step_retrieved_case jt statusOf a e hr]
    exact hinv
  · have hr2 : (a.ledger jt e).retrieved = false := by simpa using hr
    by_cases hsub : (a.ledger jt e).submitted = true
    · cases hst : statusOf e with
      | pending =>
          rw [monitor_step_pending_case jt statusOf a e hr2 hsub hst]; exact hinv
      | running =>
          rw [monitor_step_running_case jt statusOf a e hr2 hsub hst]; exact hinv
      | cancelled =>
          rw [monitor_step_cancelled_case jt statusOf a e hr2 hsub hst]; exact hinv
      | other s =>
          rw [monitor_step_other_case jt statusOf a e s hr2 hsub hst]; exact hinv
      | finished =>
          by_cases hjt : jt = .gradient_interp
          · subst hjt
            rw [monitor_step_finished_gradient_case statusOf a e hr2 hsub hst]
            exact hinv.setRetrievedTrue .gradient_interp e hsub
          · rw [monitor_step_finished_case jt statusOf a e hr2 hsub hst hjt]
            exact hinv
      | failed =>
          by_cases hb : (a.ledger jt e).reposts < max_reposts
          · rw [monitor_step_repost_case jt statusOf a e hr2 hsub (Or.inl hst) hb]
            exact hinv.setReposts jt e _
          · rw [monitor_step_fatal_case jt statusOf a e hr2 hsub (Or.inl hst)
              (Nat.le_of_not_lt hb)]
            exact hinv
      | unknown =>
          by_cases hb : (a.ledger jt e).reposts < max_reposts
          · rw [monitor_step_repost_case jt statusOf a e hr2 hsub (Or.inr hst) hb]
            exact hinv.setReposts jt e _
          · rw [monitor_step_fatal_case jt statusOf a e hr2 hsub (Or.inr hst)
              (Nat.le_of_not_lt hb)]
            exact hinv
    · have hsub2 : (a.ledger jt e).submitted = false := by simpa using hsub
      rw [monitor_step_unsubmitted_case jt statusOf a e hr2 hsub2]
      exact hinv

theorem monitor_fold_inv (jt : JobType) (statusOf : String → JobStatus) :
    ∀ (l : List String) (a : MonAcc), LedgerInv a.ledger →
      LedgerInv ((monitor_fold jt statusOf a l).state.ledger) := by
  intro l
  induction l with
  | nil => intro a h; exact h
  | cons e rest ih =>
      intro a h
      have hstep := monitor_step_inv jt statusOf a e h
      cases hs : monitor_step jt statusOf a e with
      | fatal msg a2 =>
          have hfold : monitor_fold jt statusOf a (e :: rest) = .fatal msg a2 := by
            conv_lhs => unfold monitor_fold
            rw [hs]
          rw [hfold]
          rw [hs] at hstep
          exact hstep
      | ok a2 =>
          have hfold : monitor_fold jt statusOf a (e :: rest) =
              monitor_fold jt statusOf a2 rest := by
            conv_lhs => unfold monitor_fold
            rw [hs]
          rw [hfold]
          rw [hs] at hstep
          exact ih a2 hstep

/-- C5: every ledger mutation performed by the submission primitives,
the listener, and the orchestration rounds preserves the invariant
`retrieved ⟹ submitted`: `retrieved` is only ever set for records whose
`submitted` is true (events polled to completion), and `submitted` is
only reset for records whose `retrieved` is false (the `to_repost`
events). -/
theorem claim_C5_ledger_invariant :
    (∀ (o : OState) (e : String), LedgerInv o.ledger →
      LedgerInv (run_forward_simulation o e).ledger
      ∧ LedgerInv (launch_hpc_processing_job o e).ledger
      ∧ LedgerInv (dispatch_adjoint_simulation o e).ledger
      ∧ LedgerInv (interpolate_model_remote o e).ledger)
    ∧ (∀ (jt : JobType) (statusOf : String → JobStatus) (events : List String)
        (lst : Listener) (L : Ledger), LedgerInv L →
        LedgerInv ((monitor_jobs jt statusOf events lst L).state.ledger))
    ∧ (∀ (cfg : Config) (statusOf hpcStatusOf : String → JobStatus)
        (events : List String) (s : RFState),
        s.forL.retrievedNow = [] → s.forL.toRepost = [] →
        s.hpcL.retrievedNow = [] → s.hpcL.toRepost = [] →
        LedgerInv s.o.ledger →
        LedgerInv
          ((retrieve_forward_round cfg statusOf hpcStatusOf events s).state.o.ledger))
    ∧ (∀ (statusOf : String → JobStatus) (events : List String) (s : IState),
        s.lst.retrievedNow = [] → s.lst.toRepost = [] →
        LedgerInv s.o.ledger →
        LedgerInv ((dispatch_interp_round statusOf events s).state.o.ledger)) := by
  refine ⟨?_, ?_, ?_, ?_⟩
  · intro o e h
    exact ⟨run_forward_simulation_inv h e, launch_hpc_processing_job_inv h e,
      dispatch_adjoint_simulation_inv h e, interpolate_model_remote_inv h e⟩
  · intro jt statusOf events lst L h
    exact monitor_fold_inv jt statusOf _ _ h
  · intro cfg statusOf hpcStatusOf events s h1 h2 h3 h4 h5
    exact retrieve_forward_round_inv cfg statusOf hpcStatusOf events s h1 h2 h3 h4 h5
  · intro statusOf events s h1 h2 h3
    exact dispatch_interp_round_inv statusOf events s h1 h2 h3

/-- Witness for C5 at a concrete input: starting from the
all-submitted-unretrieved ledger (which satisfies the invariant), a full
forward-retrieval round with a finishing forward job and a failing hpc
job preserves the invariant. -/
theorem claim_C5_ledger_invariant_witness :
    LedgerInv
      ((retrieve_forward_round
          { hpcProcessing := true, validation := false, adjoint := true }
          (fun _ => .finished) (fun _ => .failed) ["E1"]
          { forL := Listener.init, hpcL := Listener.init,
            o := { ledger := submittedLedger, submissions := [] },
            slept := false, retrievedThisRound := [] }).state.o.ledger) :=
  (claim_C5_ledger_invariant).2.2.1
    { hpcProcessing := true, validation := false, adjoint := true }
    (fun _ => .finished) (fun _ => .failed) ["E1"]
    { forL := Listener.init, hpcL := Listener.init,
      o := { ledger := submittedLedger, submissions := [] },
      slept := false, retrievedThisRound := [] }
    rfl rfl rfl rfl (fun _ _ _ => rfl)

end Inversionson

namespace Inversionson

theorem events_left_nil_cache (events : List String) :
    events_left events [] = events.dedup := by
  unfold events_left
  congr 1
  apply List.filter_eq_self.mpr
  intro x _
  simp

theorem monitor_fold_all_retrieved (jt : JobType) (statusOf : String → JobStatus) :
    ∀ (l : List String) (a : MonAcc), (∀ e ∈ l, (a.ledger jt e).retrieved = true) →
      ∃ a2, monitor_fold jt statusOf a l = .ok a2
        ∧ a2.listener.alreadyRetrieved = a.listener.alreadyRetrieved ++ l
        ∧ a2.listener.retrievedNow = a.listener.retrievedNow
        ∧ a2.listener.toRepost = a.listener.toRepost
        ∧ a2.listener.notSubmitted = a.listener.notSubmitted
        ∧ a2.ledger = a.ledger
        ∧ a2.queried = a.queried := by
  intro l
  induction l with
  | nil =>
      intro a _
      exact ⟨a, rfl, by simp, rfl, rfl, rfl, rfl, rfl⟩
  | cons e rest ih =>
      intro a hall
      have hstep := monitor_step_retrieved_case jt statusOf a e
        (hall e (List.mem_cons_self e rest))
      obtain ⟨a2, h1, h2, h3, h4, h5, h6, h7⟩ := ih
        { a with
          listener :=
            { a.listener with
              alreadyRetrieved := a.listener.alreadyRetrieved ++ [e] },
          finishedCount := a.finishedCount + 1 }
        (fun x hx => hall x (List.mem_cons_of_mem e hx))
      refine ⟨a2, ?_, ?_, h3, h4, h5, h6, h7⟩
      · conv_lhs => unfold monitor_fold
        rw [hstep]
        exact h1
      · rw [h2]
        simp

theorem monitor_jobs_all_retrieved (jt : JobType) (statusOf : String → JobStatus)
    (events : List String) (L : Ledger) (hnd : events.Nodup)
    (hall : ∀ e ∈ events, (L jt e).retrieved = true) :
    ∃ a2, monitor_jobs jt statusOf events Listener.init L = .ok a2
      ∧ a2.listener.alreadyRetrieved = events
      ∧ a2.listener.retrievedNow = []
      ∧ a2.listener.toRepost = []
      ∧ a2.ledger = L := by
  unfold monitor_jobs
  rw [show Listener.init.alreadyRetrieved = [] from rfl, events_left_nil_cache,
    List.dedup_eq_self.mpr hnd]
  obtain ⟨a2, h1, h2, h3, h4, h5, h6, h7⟩ := monitor_fold_all_retrieved jt statusOf
    events
    { listener := Listener.init, ledger := L,
      finishedCount := events.length - events.length,
      runningCount := 0, pendingCount := 0, queried := [] } hall
  exact ⟨a2, h1, by simpa using h2, h3, h4, h6⟩

theorem foldl_launch_submitted (o : OState) :
    ∀ (l : List String),
      (∀ x ∈ l, (o.ledger .hpc_processing x).submitted = true) →
      l.foldl launch_hpc_processing_job o = o := by
  intro l
  induction l with
  | nil => intro _; rfl
  | cons x rest ih =>
      intro hall
      have hx : launch_hpc_processing_job o x = o := by
        unfold launch_hpc_processing_job
        rw [if_pos (hall x (List.mem_cons_self x rest))]
      show List.foldl launch_hpc_processing_job (launch_hpc_processing_job o x) rest = o
      rw [hx]
      exact ih (fun y hy => hall y (List.mem_cons_of_mem x hy))

end Inversionson

namespace Inversionson

theorem rf_process_already_noop (cfg : Config) (forL : Listener) (o : OState)
    (h : ∀ x ∈ forL.alreadyRetrieved,
      (o.ledger .hpc_processing x).submitted = true) :
    rf_process_already cfg forL o = o := by
  unfold rf_process_already
  split
  · exact foldl_launch_submitted o forL.alreadyRetrieved h
  · rfl

theorem rf_finish_all_done (cfg : Config) (hpcStatusOf : String → JobStatus)
    (events : List String) (s : RFState) (forL : Listener) (o : OState)
    (hlen : forL.retrievedNow.length + forL.alreadyRetrieved.length
      = events.length)
    (hcfg : ¬ cfg.hpcProcessing ∨ cfg.validation ∨ cfg.adjoint)
    (hnd : events.Nodup)
    (hhpcL : s.hpcL = Listener.init)
    (hhpc : ∀ e ∈ events, (o.ledger .hpc_processing e).retrieved = true) :
    (rf_finish cfg hpcStatusOf events s forL o).isExit = true
    ∧ (rf_finish cfg hpcStatusOf events s forL o).state.o = o := by
  unfold rf_finish
  by_cases hp : cfg.hpcProcessing
  · have hc1 : ¬ (forL.retrievedNow.length + forL.alreadyRetrieved.length
        = events.length ∧ ¬ cfg.hpcProcessing) := fun h => h.2 hp
    rw [if_neg hc1]
    by_cases hv : cfg.validation
    · rw [if_pos ⟨hlen, hv⟩]
      exact ⟨rfl, rfl⟩
    · have ha : cfg.adjoint := by
        rcases hcfg with h | h | h
        · exact absurd hp h
        · exact absurd h hv
        · exact h
      have hc2 : ¬ (forL.retrievedNow.length + forL.alreadyRetrieved.length
          = events.length ∧ cfg.validation) := fun h => hv h.2
      rw [if_neg hc2]
      obtain ⟨b, hok, hb2, hb3, hb4, hb6⟩ :=
        monitor_jobs_all_retrieved .hpc_processing hpcStatusOf events o.ledger
          hnd hhpc
      have hblock2 : rf_hpc_block cfg hpcStatusOf events s.hpcL o =
          .ok (b.listener, { o with ledger := b.ledger }, true) := by
        unfold rf_hpc_block
        rw [if_pos ⟨hp, ha, hv⟩, hhpcL, hok]
        dsimp only
        rw [hb3, hb4]
        have hlen2 : ([] : List String).length
            + b.listener.alreadyRetrieved.length = events.length := by
          rw [hb2]
          simp
        rw [if_pos hlen2]
        rfl
      rw [hblock2, hb6]
      refine ⟨rfl, ?_⟩
      dsimp only [RoundOut.state]
      rw [if_pos rfl]
  · rw [if_pos ⟨hlen, hp⟩]
    exact ⟨rfl, rfl⟩

end Inversionson

namespace Inversionson

/-- C3 (counterexample): with `hpc_processing` enabled but
`adjoint=False` and `validation=False`, a run whose ledger is already
fully retrieved performs zero submissions yet does *not* terminate after
its first polling round — none of the loop's `break` conditions can
fire, so the loop is still running after four rounds (and, the state
being unchanged, forever). -/
theorem claim_C3_counterexample :
    (retrieve_forward_round
        { hpcProcessing := true, validation := false, adjoint := false }
        (fun _ => .pending) (fun _ => .pending) ["E1"]
        { forL := Listener.init, hpcL := Listener.init,
          o := { ledger := retrievedLedger, submissions := [] },
          slept := false, retrievedThisRound := [] }).isExit = false
    ∧ (retrieve_forward_round
        { hpcProcessing := true, validation := false, adjoint := false }
        (fun _ => .pending) (fun _ => .pending) ["E1"]
        { forL := Listener.init, hpcL := Listener.init,
          o := { ledger := retrievedLedger, submissions := [] },
          slept := false, retrievedThisRound := [] }).state.o.submissions = []
    ∧ (retrieve_forward_loop
        { hpcProcessing := true, validation := false, adjoint := false }
        (fun _ _ => .pending) (fun _ _ => .pending) ["E1"] 4
        { forL := Listener.init, hpcL := Listener.init,
          o := { ledger := retrievedLedger, submissions := [] },
          slept := false, retrievedThisRound := [] }).isRunning = true := by
  refine ⟨by decide, by decide, by decide⟩

/-- C3 (amended): re-running the forward orchestration against a ledger
in which every event is already retrieved (and, per the invariant,
submitted) for the monitored stages performs zero submissions, leaves
the ledger untouched, and exits the loop in its first polling round —
provided the configuration is not the degenerate
`hpc_processing ∧ ¬adjoint ∧ ¬validation` combination, in which the loop
has no reachable exit and spins forever (still without submitting). -/
theorem claim_C3_idempotent_rerun (cfg : Config)
    (statusOf hpcStatusOf : String → JobStatus) (events : List String)
    (L : Ledger) (hnd : events.Nodup)
    (hcfg : ¬ cfg.hpcProcessing ∨ cfg.validation ∨ cfg.adjoint)
    (hfor : ∀ e ∈ events, (L .forward e).retrieved = true)
    (hhpcr : ∀ e ∈ events, (L .hpc_processing e).retrieved = true)
    (hhpcs : ∀ e ∈ events, (L .hpc_processing e).submitted = true) :
    (retrieve_forward_round cfg statusOf hpcStatusOf events
        { forL := Listener.init, hpcL := Listener.init,
          o := { ledger := L, submissions := [] },
          slept := false, retrievedThisRound := [] }).isExit = true
    ∧ (retrieve_forward_round cfg statusOf hpcStatusOf events
        { forL := Listener.init, hpcL := Listener.init,
          o := { ledger := L, submissions := [] },
          slept := false, retrievedThisRound := [] }).state.o.submissions = []
    ∧ (retrieve_forward_round cfg statusOf hpcStatusOf events
        { forL := Listener.init, hpcL := Listener.init,
          o := { ledger := L, submissions := [] },
          slept := false, retrievedThisRound := [] }).state.o.ledger = L := by
  obtain ⟨a2, hok, h2, h3, h4, h6⟩ :=
    monitor_jobs_all_retrieved .forward statusOf events L hnd hfor
  have hnoop : rf_process_already cfg a2.listener
      { ledger := L, submissions := [] } =
      { ledger := L, submissions := [] } := by
    refine rf_process_already_noop cfg a2.listener _ ?_
    intro x hx
    rw [h2] at hx
    exact hhpcs x hx
  have hround : retrieve_forward_round cfg statusOf hpcStatusOf events
      { forL := Listener.init, hpcL := Listener.init,
        o := { ledger := L, submissions := [] },
        slept := false, retrievedThisRound := [] } =
      rf_finish cfg hpcStatusOf events
        { forL := Listener.init, hpcL := Listener.init,
          o := { ledger := L, submissions := [] },
          slept := false, retrievedThisRound := [] } a2.listener
        { ledger := L, submissions := [] } := by
    unfold retrieve_forward_round
    dsimp only
    rw [hok]
    dsimp only
    rw [h3, h4, h6]
    dsimp only [List.foldl_nil]
    rw [hnoop]
  have hfin := rf_finish_all_done cfg hpcStatusOf events
    { forL := Listener.init, hpcL := Listener.init,
      o := { ledger := L, submissions := [] },
      slept := false, retrievedThisRound := [] } a2.listener
    { ledger := L, submissions := [] }
    (by rw [h3, h2]; simp) hcfg hnd rfl hhpcr
  rw [hround]
  refine ⟨hfin.1, ?_, ?_⟩
  · rw [hfin.2]
  · rw [hfin.2]

/-- Witness for the amended C3: a fully retrieved two-event ledger with
hpc processing disabled — the round exits at once, with no submissions
and an unchanged ledger. -/
theorem claim_C3_idempotent_rerun_witness :
    (retrieve_forward_round
        { hpcProcessing := false, validation := false, adjoint := false }
        (fun _ => .pending) (fun _ => .pending) ["E1", "E2"]
        { forL := Listener.init, hpcL := Listener.init,
          o := { ledger := retrievedLedger, submissions := [] },
          slept := false, retrievedThisRound := [] }).isExit = true
    ∧ (retrieve_forward_round
        { hpcProcessing := false, validation := false, adjoint := false }
        (fun _ => .pending) (fun _ => .pending) ["E1", "E2"]
        { forL := Listener.init, hpcL := Listener.init,
          o := { ledger := retrievedLedger, submissions := [] },
          slept := false, retrievedThisRound := [] }).state.o.submissions = [] :=
  ⟨(claim_C3_idempotent_rerun
      { hpcProcessing := false, validation := false, adjoint := false }
      (fun _ => .pending) (fun _ => .pending) ["E1", "E2"] retrievedLedger
      (by decide) (Or.inl (by decide)) (fun _ _ => rfl) (fun _ _ => rfl)
      (fun _ _ => rfl)).1,
   (claim_C3_idempotent_rerun
      { hpcProcessing := false, validation := false, adjoint := false }
      (fun _ => .pending) (fun _ => .pending) ["E1", "E2"] retrievedLedger
      (by decide) (Or.inl (by decide)) (fun _ _ => rfl) (fun _ _ => rfl)
      (fun _ _ => rfl)).2.1⟩

end Inversionson

namespace Inversionson

theorem interp_finish_next_slept (events : List String) (lst : Listener)
    (o : OState) (s2 : IState) (h : interp_finish events lst o = .next s2) :
    s2.slept = true ↔ s2.retrievedThisRound = [] := by
  unfold interp_finish at h
  split at h
  · cases h
  · cases h
    simp

/-- C9 (counterexample): in the reconciliation loop of
`__dispatch_remaining_forwards`, a round that retrieved an event still
invokes the idle primitive — `sleep_or_process` is called
unconditionally at the end of every round (line 1105). -/
theorem claim_C9_counterexample :
    (dispatch_remaining_round_on (fun _ => .finished) ["E1"]
        { lst := Listener.init,
          o := { ledger := submittedLedger, submissions := [] },
          slept := false, retrievedThisRound := [] }).state.retrievedThisRound
      = ["E1"]
    ∧ (dispatch_remaining_round_on (fun _ => .finished) ["E1"]
        { lst := Listener.init,
          o := { ledger := submittedLedger, submissions := [] },
          slept := false, retrievedThisRound := [] }).state.slept = true := by
  refine ⟨by decide, by decide⟩

/-- C9 (amended): in the main interpolation-dispatch loop the idle
primitive is invoked between rounds exactly when the round retrieved no
event; the reconciliation loop of `__dispatch_remaining_forwards`
instead sleeps unconditionally after every round, whether or not events
were retrieved. -/
theorem claim_C9_sleep_between_rounds (statusOf : String → JobStatus)
    (events : List String) (s : IState) :
    (∀ s2, dispatch_interp_round statusOf events s = .next s2 →
      (s2.slept = true ↔ s2.retrievedThisRound = []))
    ∧ (∀ (eventsLeft : List String) (s2 : IState),
        dispatch_remaining_round_on statusOf eventsLeft s = .next s2 →
        s2.slept = true) := by
  constructor
  · intro s2 h
    unfold dispatch_interp_round at h
    cases hm : monitor_jobs .model_interp statusOf events s.lst s.o.ledger with
    | fatal msg a =>
        rw [hm] at h
        cases h
    | ok a =>
        rw [hm] at h
        exact interp_finish_next_slept events a.listener _ s2 h
  · intro eventsLeft s2 h
    unfold dispatch_remaining_round_on at h
    cases hm : monitor_jobs .model_interp statusOf eventsLeft s.lst
        s.o.ledger with
    | fatal msg a =>
        rw [hm] at h
        cases h
    | ok a =>
        rw [hm] at h
        cases h
        rfl

/-- Witness for the amended C9: a pending interpolation round sleeps and
retrieved nothing, while a reconciliation round that retrieved `E1`
sleeps anyway. -/
theorem claim_C9_sleep_between_rounds_witness :
    (∃ s2, dispatch_interp_round (fun _ => .pending) ["E1"]
        { lst := Listener.init,
          o := { ledger := submittedLedger, submissions := [] },
          slept := false, retrievedThisRound := [] } = .next s2
      ∧ s2.slept = true)
    ∧ (∃ s2, dispatch_remaining_round_on (fun _ => .finished) ["E1"]
        { lst := Listener.init,
          o := { ledger := submittedLedger, submissions := [] },
          slept := false, retrievedThisRound := [] } = .next s2
      ∧ s2.slept = true) :=
  ⟨⟨_, rfl,
    ((claim_C9_sleep_between_rounds (fun _ => .pending) ["E1"]
        { lst := Listener.init,
          o := { ledger := submittedLedger, submissions := [] },
          slept := false, retrievedThisRound := [] }).1 _ rfl).mpr (by decide)⟩,
   ⟨_, rfl,
    (claim_C9_sleep_between_rounds (fun _ => .finished) ["E1"]
        { lst := Listener.init,
          o := { ledger := submittedLedger, submissions := [] },
          slept := false, retrievedThisRound := [] }).2 ["E1"] _ rfl⟩⟩

end Inversionson

namespace Inversionson

/-- A ledger whose model interpolations are submitted but not retrieved,
with nothing else submitted. -/
def interpSubmittedLedger : Ledger :=
  fun jt _ => if jt = .model_interp then
    { submitted := true, retrieved := false, reposts := 0 }
  else
    { submitted := false, retrieved := false, reposts := 0 }

/-- A ledger whose model interpolations are retrieved, with nothing else
submitted. -/
def interpRetrievedLedger : Ledger :=
  fun jt _ => if jt = .model_interp then
    { submitted := true, retrieved := true, reposts := 0 }
  else
    { submitted := false, retrieved := false, reposts := 0 }

/-- C6: the reconciliation pass of `__dispatch_remaining_forwards`.  For
an event whose forward was never submitted: when its interpolation is
retrieved the forward is dispatched immediately (third conjunct); but
when the interpolation was never submitted the scan executes
`events_left.append()` — an argument-less `append` — and crashes with a
`TypeError` before re-dispatching anything (first conjunct); and when
the interpolation is submitted but unretrieved the event is placed on no
list at all, so the pass ends with the forward still unsubmitted and
nothing monitoring it (second conjunct). -/
theorem claim_C6_reconciliation_pass :
    dispatch_remaining_scan { ledger := freshLedger, submissions := [] } ["E1"]
      = .error (.typeError "list.append() takes exactly one argument (0 given)")
    ∧ dispatch_remaining_scan
        { ledger := interpSubmittedLedger, submissions := [] } ["E1"]
      = .ok ({ ledger := interpSubmittedLedger, submissions := [] }, [])
    ∧ dispatch_remaining_scan
        { ledger := interpRetrievedLedger, submissions := [] } ["E1"]
      = .ok ({ ledger := interpRetrievedLedger.setSubmitted .forward "E1" true,
               submissions := [(.forward, "E1")] }, []) :=
  ⟨rfl, rfl, rfl⟩

end Inversionson
